import Mathlib

set_option maxHeartbeats 1600000

/-!
Shallow embedding of the storage-folding pass (src/StorageFolding.cpp) of the
Halide compiler, together with theorems checking the natural-language
specification against it.

The IR node set, bounds inference, the simplifier, monotonicity
classification and the constant-bound solver are external collaborators of
the pass; they are represented by an explicit oracle record whose fields
are opaque function parameters, exactly as the pass consumes them.
The pass logic itself (CountProducers, FoldStorageOfFunction,
AttemptStorageFoldingOfFunction, IsBufferSpecial, StorageFolding,
SubstituteInConstants, storage_folding) is translated from the source.
-/

namespace StorageFold

/-- Value types of IR expressions: 32-bit integers, strings and opaque
handles (the only distinction the pass inspects is handle vs non-handle). -/
inductive Ty where
  | i32
  | handle
deriving DecidableEq, Repr

/-- Call node kinds (Call::CallType): calls to Halide functions, to external
functions (Call::Extern in the source), to intrinsics, or image loads. -/
inductive CallType where
  | Halide
  | Extn
  | Intrinsic
  | Image
deriving DecidableEq, Repr

/-- Loop kinds (ForType). -/
inductive ForType where
  | Serial
  | Parallel
  | Vectorized
  | Unrolled
deriving DecidableEq, Repr

/-- Result of the monotonicity-classification collaborator (Monotonic.h). -/
inductive Monotonic where
  | Increasing
  | Decreasing
  | Constant
  | Unknown
deriving DecidableEq, Repr

/-- IR expressions: the constructors the storage-folding pass builds or
inspects.  `Call` carries a name, arguments and a call type, as in the
source; result types carried by C++ nodes but never inspected by the pass
are omitted. -/
inductive Expr where
  | IntImm (v : Int)
  | StrImm (s : String)
  | Var (ty : Ty) (name : String)
  | Add (a b : Expr)
  | Sub (a b : Expr)
  | Mul (a b : Expr)
  | Mod (a b : Expr)
  | LT (a b : Expr)
  | GT (a b : Expr)
  | LE (a b : Expr)
  | GE (a b : Expr)
  | And (a b : Expr)
  | Select (c t f : Expr)
  | Call (name : String) (args : List Expr) (ct : CallType)

/-- IR statements: the constructors the pass builds, rewrites or traverses.
C++ mutators compare subtrees by pointer identity (same_as); the embedding
makes that observable by pairing every mutator result with a changed flag
(true exactly when some node of the subtree was reconstructed). -/
inductive Stmt where
  | Evaluate (e : Expr)
  | Provide (name : String) (values : List Expr) (args : List Expr)
  | Block (first rest : Stmt)
  | LetStmt (name : String) (value : Expr) (body : Stmt)
  | AssertStmt (condition message : Expr)
  | ProducerConsumer (name : String) (is_producer : Bool) (body : Stmt)
  | For (name : String) (min extent : Expr) (for_type : ForType) (body : Stmt)
  | Acquire (semaphore count : Expr) (body : Stmt)
  | Realize (name : String) (bounds : List (Expr × Expr)) (body : Stmt)

/-- is_one from IROperator.h restricted to the scalar case: the expression
is the integer constant one. -/
def is_one : Expr → Bool
  | .IntImm 1 => true
  | _ => false

/-- is_const from IROperator.h restricted to our node set: the expression is
an integer constant. -/
def is_const : Expr → Bool
  | .IntImm _ => true
  | _ => false

/-- as_const_int from IROperator.h: extract the value of a constant. -/
def as_const_int : Expr → Option Int
  | .IntImm v => some v
  | _ => none

/-- expr_uses_var from ExprUsesVar.h: does a variable with the given name
occur in the expression. -/
def expr_uses_var (e : Expr) (x : String) : Bool :=
  match e with
  | .IntImm _ => false
  | .StrImm _ => false
  | .Var _ n => n = x
  | .Add a b => expr_uses_var a x || expr_uses_var b x
  | .Sub a b => expr_uses_var a x || expr_uses_var b x
  | .Mul a b => expr_uses_var a x || expr_uses_var b x
  | .Mod a b => expr_uses_var a x || expr_uses_var b x
  | .LT a b => expr_uses_var a x || expr_uses_var b x
  | .GT a b => expr_uses_var a x || expr_uses_var b x
  | .LE a b => expr_uses_var a x || expr_uses_var b x
  | .GE a b => expr_uses_var a x || expr_uses_var b x
  | .And a b => expr_uses_var a x || expr_uses_var b x
  | .Select c t f => expr_uses_var c x || expr_uses_var t x || expr_uses_var f x
  | .Call _ args _ => args.attach.any (fun a => expr_uses_var a.1 x)
termination_by sizeOf e
decreasing_by all_goals
  simp_wf <;>
  first
    | omega
    | (have h := List.sizeOf_lt_of_mem a.2; omega)

/-- substitute from Substitute.h: replace every variable named `x` by `v`
(our expression language has no binders). -/
def substitute (x : String) (v : Expr) : Expr → Expr
  | .IntImm n => .IntImm n
  | .StrImm s => .StrImm s
  | .Var ty n => if n = x then v else .Var ty n
  | .Add a b => .Add (substitute x v a) (substitute x v b)
  | .Sub a b => .Sub (substitute x v a) (substitute x v b)
  | .Mul a b => .Mul (substitute x v a) (substitute x v b)
  | .Mod a b => .Mod (substitute x v a) (substitute x v b)
  | .LT a b => .LT (substitute x v a) (substitute x v b)
  | .GT a b => .GT (substitute x v a) (substitute x v b)
  | .LE a b => .LE (substitute x v a) (substitute x v b)
  | .GE a b => .GE (substitute x v a) (substitute x v b)
  | .And a b => .And (substitute x v a) (substitute x v b)
  | .Select c t f => .Select (substitute x v c) (substitute x v t) (substitute x v f)
  | .Call n args ct => .Call n (args.attach.map (fun a => substitute x v a.1)) ct
termination_by e => sizeOf e
decreasing_by all_goals
  simp_wf <;>
  first
    | omega
    | (have h := List.sizeOf_lt_of_mem a.2; omega)

/-- Environment update for the evaluation semantics of expressions. -/
def upd (ρ : String → Int) (x : String) (i : Int) : String → Int :=
  fun y => if y = x then i else ρ y

/-- Integer evaluation semantics of expressions under a valuation of the
free variables.  Comparisons yield 1/0; the `likely` intrinsic is a
semantic identity; other calls are opaque (value 0). -/
def evalE (ρ : String → Int) : Expr → Int
  | .IntImm v => v
  | .StrImm _ => 0
  | .Var _ n => ρ n
  | .Add a b => evalE ρ a + evalE ρ b
  | .Sub a b => evalE ρ a - evalE ρ b
  | .Mul a b => evalE ρ a * evalE ρ b
  | .Mod a b => evalE ρ a % evalE ρ b
  | .LT a b => if evalE ρ a < evalE ρ b then 1 else 0
  | .GT a b => if evalE ρ a > evalE ρ b then 1 else 0
  | .LE a b => if evalE ρ a ≤ evalE ρ b then 1 else 0
  | .GE a b => if evalE ρ a ≥ evalE ρ b then 1 else 0
  | .And a b => if evalE ρ a ≠ 0 ∧ evalE ρ b ≠ 0 then 1 else 0
  | .Select c t f => if evalE ρ c ≠ 0 then evalE ρ t else evalE ρ f
  | .Call "likely" [a] _ => evalE ρ a
  | .Call _ _ _ => 0
termination_by e => sizeOf e
decreasing_by all_goals simp_wf <;> omega

/-- next_power_of_two from StorageFolding.cpp: 1 << ceil(log2 x).  Faithful
for x >= 1; for x <= 0 the C++ source invokes undefined floating-point
behaviour and the embedding returns 1 (all theorems about it assume
1 <= x). -/
def next_power_of_two (x : Int) : Int := 2 ^ Nat.clog 2 x.toNat

/-- The automatic fold-factor selection of
AttemptStorageFoldingOfFunction::visit(For) (the branch with no explicit
schedule factor): given the constant-bound solver result for the extent,
fold only when it is an integer constant at most max_fold = 1024, taking
the next power of two as the factor. -/
def autoFoldFactor (max_extent : Option Expr) : Option Expr :=
  match max_extent with
  | some me =>
    match as_const_int me with
    | some v => if v ≤ 1024 then some (.IntImm (next_power_of_two v)) else none
    | none => none
  | none => none

/-- FoldStorageOfFunction::visit(Call): mutate the arguments, then, for a
Call to the folded Halide function, replace the index argument of the
folded dimension by 0 (trivial factor) or by itself modulo the factor.
The Bool is the changed flag (C++ pointer identity: true when some node of
the subtree was reconstructed). -/
def foldE (f : String) (d : Nat) (k : Expr) : Expr → Expr × Bool
  | .IntImm n => (.IntImm n, false)
  | .StrImm s => (.StrImm s, false)
  | .Var ty n => (.Var ty n, false)
  | .Add a b =>
    let ra := foldE f d k a
    let rb := foldE f d k b
    (.Add ra.1 rb.1, ra.2 || rb.2)
  | .Sub a b =>
    let ra := foldE f d k a
    let rb := foldE f d k b
    (.Sub ra.1 rb.1, ra.2 || rb.2)
  | .Mul a b =>
    let ra := foldE f d k a
    let rb := foldE f d k b
    (.Mul ra.1 rb.1, ra.2 || rb.2)
  | .Mod a b =>
    let ra := foldE f d k a
    let rb := foldE f d k b
    (.Mod ra.1 rb.1, ra.2 || rb.2)
  | .LT a b =>
    let ra := foldE f d k a
    let rb := foldE f d k b
    (.LT ra.1 rb.1, ra.2 || rb.2)
  | .GT a b =>
    let ra := foldE f d k a
    let rb := foldE f d k b
    (.GT ra.1 rb.1, ra.2 || rb.2)
  | .LE a b =>
    let ra := foldE f d k a
    let rb := foldE f d k b
    (.LE ra.1 rb.1, ra.2 || rb.2)
  | .GE a b =>
    let ra := foldE f d k a
    let rb := foldE f d k b
    (.GE ra.1 rb.1, ra.2 || rb.2)
  | .And a b =>
    let ra := foldE f d k a
    let rb := foldE f d k b
    (.And ra.1 rb.1, ra.2 || rb.2)
  | .Select c t e =>
    let rc := foldE f d k c
    let rt := foldE f d k t
    let re := foldE f d k e
    (.Select rc.1 rt.1 re.1, rc.2 || rt.2 || re.2)
  | .Call n args ct =>
    let rs := args.attach.map (fun a => foldE f d k a.1)
    let args1 := rs.map Prod.fst
    let ch := rs.any Prod.snd
    if n = f ∧ ct = .Halide then
      (.Call n (args1.set d (if is_one k then .IntImm 0 else .Mod (args1.getD d (.IntImm 0)) k)) ct, true)
    else
      (.Call n args1 ct, ch)
termination_by e => sizeOf e
decreasing_by all_goals
  simp_wf <;>
  first
    | omega
    | (have h := List.sizeOf_lt_of_mem a.2; omega)

/-- FoldStorageOfFunction as a statement mutator: visit(Provide) rewrites
writes to the folded function (by name alone); everything else is the
generic IRMutator recursion. -/
def foldS (f : String) (d : Nat) (k : Expr) : Stmt → Stmt × Bool
  | .Evaluate e =>
    let r := foldE f d k e
    (.Evaluate r.1, r.2)
  | .Provide n vals args =>
    let rv := vals.map (foldE f d k)
    let ra := args.map (foldE f d k)
    let vals1 := rv.map Prod.fst
    let args1 := ra.map Prod.fst
    let ch := rv.any Prod.snd || ra.any Prod.snd
    if n = f then
      (.Provide n vals1 (args1.set d (if is_one k then .IntImm 0 else .Mod (args1.getD d (.IntImm 0)) k)), true)
    else
      (.Provide n vals1 args1, ch)
  | .Block a b =>
    let ra := foldS f d k a
    let rb := foldS f d k b
    (.Block ra.1 rb.1, ra.2 || rb.2)
  | .LetStmt n v b =>
    let rv := foldE f d k v
    let rb := foldS f d k b
    (.LetStmt n rv.1 rb.1, rv.2 || rb.2)
  | .AssertStmt c m =>
    let rc := foldE f d k c
    let rm := foldE f d k m
    (.AssertStmt rc.1 rm.1, rc.2 || rm.2)
  | .ProducerConsumer n p b =>
    let rb := foldS f d k b
    (.ProducerConsumer n p rb.1, rb.2)
  | .For n mn ex ft b =>
    let rm := foldE f d k mn
    let re := foldE f d k ex
    let rb := foldS f d k b
    (.For n rm.1 re.1 ft rb.1, rm.2 || re.2 || rb.2)
  | .Acquire s cnt b =>
    let rs := foldE f d k s
    let rc := foldE f d k cnt
    let rb := foldS f d k b
    (.Acquire rs.1 rc.1 rb.1, rs.2 || rc.2 || rb.2)
  | .Realize n bounds b =>
    let rbs := bounds.map (fun p => (foldE f d k p.1, foldE f d k p.2))
    let rb := foldS f d k b
    (.Realize n (rbs.map (fun p => (p.1.1, p.2.1))) rb.1,
     rbs.any (fun p => p.1.2 || p.2.2) || rb.2)

/-- CountProducers / count_producers: the number of producer markers for
the named function, not descending into a matching producer node. -/
def count_producers (s : Stmt) (name : String) : Nat :=
  match s with
  | .ProducerConsumer n isP body =>
    if isP ∧ n = name then 1 else count_producers body name
  | .Evaluate _ => 0
  | .Provide _ _ _ => 0
  | .Block a b => count_producers a name + count_producers b name
  | .LetStmt _ _ b => count_producers b name
  | .AssertStmt _ _ => 0
  | .For _ _ _ _ b => count_producers b name
  | .Acquire _ _ b => count_producers b name
  | .Realize _ _ b => count_producers b name

/-- IsBufferSpecial on expressions: some variable of handle type named
`fname ++ ".buffer"` occurs. -/
def is_buffer_special_expr (fname : String) : Expr → Bool
  | .IntImm _ => false
  | .StrImm _ => false
  | .Var ty n => decide (ty = Ty.handle) && decide (n = fname ++ ".buffer")
  | .Add a b => is_buffer_special_expr fname a || is_buffer_special_expr fname b
  | .Sub a b => is_buffer_special_expr fname a || is_buffer_special_expr fname b
  | .Mul a b => is_buffer_special_expr fname a || is_buffer_special_expr fname b
  | .Mod a b => is_buffer_special_expr fname a || is_buffer_special_expr fname b
  | .LT a b => is_buffer_special_expr fname a || is_buffer_special_expr fname b
  | .GT a b => is_buffer_special_expr fname a || is_buffer_special_expr fname b
  | .LE a b => is_buffer_special_expr fname a || is_buffer_special_expr fname b
  | .GE a b => is_buffer_special_expr fname a || is_buffer_special_expr fname b
  | .And a b => is_buffer_special_expr fname a || is_buffer_special_expr fname b
  | .Select c t f =>
    is_buffer_special_expr fname c || is_buffer_special_expr fname t ||
      is_buffer_special_expr fname f
  | .Call _ args _ => args.attach.any (fun a => is_buffer_special_expr fname a.1)
termination_by e => sizeOf e
decreasing_by all_goals
  simp_wf <;>
  first
    | omega
    | (have h := List.sizeOf_lt_of_mem a.2; omega)

/-- IsBufferSpecial: does the allocated buffer get referred to directly via
a handle-typed variable anywhere in the scope. -/
def is_buffer_special (fname : String) : Stmt → Bool
  | .Evaluate e => is_buffer_special_expr fname e
  | .Provide _ vals args =>
    vals.any (is_buffer_special_expr fname) || args.any (is_buffer_special_expr fname)
  | .Block a b => is_buffer_special fname a || is_buffer_special fname b
  | .LetStmt _ v b => is_buffer_special_expr fname v || is_buffer_special fname b
  | .AssertStmt c m => is_buffer_special_expr fname c || is_buffer_special_expr fname m
  | .ProducerConsumer _ _ b => is_buffer_special fname b
  | .For _ mn ex _ b =>
    is_buffer_special_expr fname mn || is_buffer_special_expr fname ex ||
      is_buffer_special fname b
  | .Acquire s c b =>
    is_buffer_special_expr fname s || is_buffer_special_expr fname c ||
      is_buffer_special fname b
  | .Realize _ bounds b =>
    bounds.any (fun p => is_buffer_special_expr fname p.1 || is_buffer_special_expr fname p.2) ||
      is_buffer_special fname b

/-- Per-axis schedule metadata (StorageDim): an optional explicit fold
factor and the declared fold direction. -/
structure StorageDim where
  var : String
  fold_factor : Option Expr
  fold_forward : Bool

/-- The slice of a function schedule the pass consumes. -/
structure FuncSchedule where
  storage_dims : List StorageDim
  async : Bool

/-- The slice of Function the pass consumes. -/
structure Func where
  name : String
  schedule : FuncSchedule

/-- Out-of-range storage dimension (C++ indexing past the schedule list is
an internal error; the embedding supplies a factor-free dimension). -/
def defaultStorageDim : StorageDim := ⟨"", none, true⟩

/-- The default-constructed Function used when the realize name has no
entry in the environment. -/
def defaultFunc : Func := ⟨"", ⟨[], false⟩⟩

/-- A per-dimension interval of symbolic bounds. -/
structure Interval where
  min : Expr
  max : Expr

/-- Box: ordered per-dimension intervals, as returned by bounds inference. -/
abbrev Box := List Interval

/-- Box indexing (out of range yields a degenerate constant interval). -/
def Box.get (b : Box) (i : Nat) : Interval := b.getD i ⟨.IntImm 0, .IntImm 0⟩

/-- The collaborator interfaces the pass consumes: bounds inference,
box algebra, the simplifier, monotonicity classification, the
constant-bound solver (with a pushed loop-variable scope) and the prover.
Their implementations live outside the excerpt; the embedding treats them
as opaque function parameters. -/
structure Oracles where
  box_provided : Stmt → String → Box
  box_required : Stmt → String → Box
  box_union : Box → Box → Box
  box_contains : Box → Box → Bool
  simplify : Expr → Expr
  is_monotonic : Expr → String → Monotonic
  find_constant_bound : Expr → String → Expr → Expr → Option Expr
  can_prove : Expr → Bool

/-- The semaphore record created per async fold. -/
structure Semaphore where
  name : String
  var : Expr
  init : Expr

/-- A fold result record. -/
structure Fold where
  dim : Nat
  factor : Expr
  semaphore : Option Semaphore

/-- The global fresh-name counter behind unique_name, made explicit. -/
def unique_name (c : Nat) : String := "_" ++ toString c

/-- Forward per-step acquisition (line 257): max_provided minus its value
at the previous iteration. -/
def acquireExprFwd (x : String) (loop_var max_provided : Expr) : Expr :=
  .Sub max_provided (substitute x (.Sub loop_var (.IntImm 1)) max_provided)

/-- Forward per-step release (line 258): min_required at the next
iteration minus its current value. -/
def releaseExprFwd (x : String) (loop_var min_required : Expr) : Expr :=
  .Sub (substitute x (.Add loop_var (.IntImm 1)) min_required) min_required

/-- Backward per-step acquisition (line 263). -/
def acquireExprBwd (x : String) (loop_var min_provided : Expr) : Expr :=
  .Sub (substitute x (.Sub loop_var (.IntImm 1)) min_provided) min_provided

/-- Backward per-step release (line 264). -/
def releaseExprBwd (x : String) (loop_var max_required : Expr) : Expr :=
  .Sub max_required (substitute x (.Add loop_var (.IntImm 1)) max_required)

/-- The likely intrinsic wrapper. -/
def likelyE (e : Expr) : Expr := .Call "likely" [e] .Intrinsic

/-- Result of the semaphore synthesis step. -/
structure SynthResult where
  body : Stmt
  sema : Semaphore
  counter : Nat

/-- The async semaphore synthesis of visit(For) (lines 246-289): build the
per-step acquire/release amounts for the established direction, fold the
first-iteration surplus into the initial count when it is provably
constant (otherwise clamp to_acquire with a select on the first
iteration), then wrap the body in the acquire/release bracket. -/
def synthSemaphore (O : Oracles) (fname x : String) (loop_var loop_min : Expr)
    (can_fold_forwards : Bool)
    (max_provided min_provided min_required max_required factor extent : Expr)
    (body : Stmt) (c : Nat) : SynthResult :=
  let sname := fname ++ ".folding_semaphore." ++ unique_name c
  let svar : Expr := .Var .handle sname
  let p :=
    if can_fold_forwards then
      (acquireExprFwd x loop_var max_provided, releaseExprFwd x loop_var min_required)
    else
      (acquireExprBwd x loop_var min_provided, releaseExprBwd x loop_var max_required)
  let fudge := O.simplify (substitute x loop_min (.Sub extent p.1))
  let q :=
    if is_const fudge then
      (Expr.Sub factor fudge, p.1)
    else
      (factor, Expr.Select (.GT loop_var loop_min) (likelyE p.1) extent)
  let body1 := Stmt.Block body (.Evaluate (.Call "halide_semaphore_release" [svar, p.2] .Extn))
  let body2 := Stmt.Acquire svar q.2 body1
  ⟨body2, ⟨sname, svar, q.1⟩, c + 1⟩

/-- Number of For nodes in a statement: the termination measure of the
loop-fold planner (its recursion re-enters a body whose loops it has
already unwrapped by one level). -/
def forCount : Stmt → Nat
  | .Evaluate _ => 0
  | .Provide _ _ _ => 0
  | .Block a b => forCount a + forCount b
  | .LetStmt _ _ b => forCount b
  | .AssertStmt _ _ => 0
  | .ProducerConsumer _ _ b => forCount b
  | .For _ _ _ _ b => forCount b + 1
  | .Acquire _ _ b => forCount b
  | .Realize _ _ b => forCount b

/-- The runtime error call emitted for an asserted-direction violation. -/
def badFoldError (fname v opName : String) : Expr :=
  .Call "halide_error_bad_fold" [.StrImm fname, .StrImm v, .StrImm opName] .Extn

/-- The runtime error call emitted for a too-small explicit factor. -/
def foldFactorTooSmallError (fname v : String) (ef : Expr) (opName : String)
    (extent : Expr) : Expr :=
  .Call "halide_error_fold_factor_too_small"
    [.StrImm fname, .StrImm v, ef, .StrImm opName, extent] .Extn

/-- Outcome of the per-dimension loop of visit(For): either an early
return with a finished statement, or fall-through to the box-containment
check with the (possibly rewritten) loop body. -/
inductive TryResult where
  | done (stmt : Stmt) (changed : Bool) (folds : List Fold) (counter : Nat)
  | more (body : Stmt) (changed : Bool) (folds : List Fold) (counter : Nat)

/-- Outcome of one iteration of the per-dimension loop: an early return
out of visit(For) with a finished statement, a successful fold after which
scanning continues (no cross-iteration overlap was proven), or no fold at
this dimension. -/
inductive StepResult where
  | ret (stmt : Stmt) (changed : Bool) (fold : Fold) (counter : Nat)
  | fold_continue (body : Stmt) (changed : Bool) (fold : Fold) (counter : Nat)
  | skip (body : Stmt) (changed : Bool) (counter : Nat)

/-- Result of the direction-establishment step (monotonicity
classification, or declared direction plus runtime assertion). -/
structure DirResult where
  cf : Bool
  cb : Bool
  body : Stmt
  changed : Bool

/-- Lines 157-208 of visit(For): establish a fold direction.  Unless in
explicit-only mode, classify the monotonicity of the simplified min/max
(and, for async stages, of the provided bounds).  If neither direction is
proved but an explicit factor is relevant, take the declared direction and
prepend a runtime assertion that it actually holds. -/
def dirDecide (O : Oracles) (func : Func) (eo : Bool) (opName : String)
    (loop_var : Expr) (mn mx max_provided min_provided : Expr)
    (storage_dim : StorageDim) (explicit_factor : Option Expr)
    (body : Stmt) (bodyChanged : Bool) : DirResult :=
  let cf0 : Bool := !eo && decide (O.is_monotonic mn opName = .Increasing)
  let cb0 : Bool := !eo && decide (O.is_monotonic mx opName = .Decreasing)
  let cf1 : Bool :=
    if func.schedule.async then
      cf0 && decide (O.is_monotonic max_provided opName = .Increasing)
    else cf0
  let cb1 : Bool :=
    if func.schedule.async then
      cb0 && decide (O.is_monotonic min_provided opName = .Decreasing)
    else cb0
  if !cf1 && !cb1 && explicit_factor.isSome then
    if storage_dim.fold_forward then
      let min_next := substitute opName (.Add loop_var (.IntImm 1)) mn
      let cond0 := Expr.GE min_next mn
      let cond :=
        if func.schedule.async then
          Expr.And cond0
            (.GE (substitute opName (.Add loop_var (.IntImm 1)) max_provided) max_provided)
        else cond0
      ⟨true, false,
       Stmt.Block (.AssertStmt cond (badFoldError func.name storage_dim.var opName)) body,
       true⟩
    else
      let max_next := substitute opName (.Add loop_var (.IntImm 1)) mx
      let cond0 := Expr.LE max_next mx
      let cond :=
        if func.schedule.async then
          Expr.And cond0
            (.LE (substitute opName (.Add loop_var (.IntImm 1)) min_provided) min_provided)
        else cond0
      ⟨false, true,
       Stmt.Block (.AssertStmt cond (badFoldError func.name storage_dim.var opName)) body,
       true⟩
  else ⟨cf1, cb1, body, bodyChanged⟩

/-- Result of the factor-selection step. -/
structure FactorResult where
  factor : Option Expr
  body : Stmt
  changed : Bool

/-- Lines 213-237 of visit(For): pick the fold factor.  An explicit
schedule factor is used as-is, guarded by a runtime extent check;
otherwise the automatic constant-bound selection applies. -/
def factorChoose (O : Oracles) (fname : String) (storage_dim : StorageDim)
    (opName : String) (loop_min loop_max extent : Expr)
    (explicit_factor : Option Expr) (body : Stmt) (bodyChanged : Bool) : FactorResult :=
  match explicit_factor with
  | some ef =>
    ⟨some ef,
     Stmt.Block
       (.AssertStmt (.LE extent ef)
         (foldFactorTooSmallError fname storage_dim.var ef opName extent)) body,
     true⟩
  | none =>
    ⟨autoFoldFactor (O.find_constant_bound extent opName loop_min loop_max), body, bodyChanged⟩

/-- The body of the per-dimension loop of
AttemptStorageFoldingOfFunction::visit(For) (lines 133-311) at dimension
`d`: simplify the per-axis bounds, decide whether an explicit factor is
relevant, establish a direction, pick the factor, rewrite the body,
synthesize a semaphore when async, and decide whether the scan continues.
`body`/`bodyChanged` track the current loop body and whether it differs,
as a C++ pointer, from the original `origBody`. -/
def stepDim (O : Oracles) (func : Func) (eo : Bool)
    (opName : String) (opMin opExtent : Expr) (ft : ForType) (origBody : Stmt)
    (loop_var loop_min loop_max : Expr)
    (provided required box : Box)
    (d : Nat) (body : Stmt) (bodyChanged : Bool) (c : Nat) : StepResult :=
  let mn := O.simplify (Box.get box d).min
  let mx := O.simplify (Box.get box d).max
  let min_provided := O.simplify (Box.get provided d).min
  let max_provided := O.simplify (Box.get provided d).max
  let min_required := O.simplify (Box.get required d).min
  let max_required := O.simplify (Box.get required d).max
  let storage_dim := func.schedule.storage_dims.getD d defaultStorageDim
  let explicit_factor : Option Expr :=
    if expr_uses_var mn opName || expr_uses_var mx opName then
      storage_dim.fold_factor
    else
      none
  let t := dirDecide O func eo opName loop_var mn mx max_provided min_provided
    storage_dim explicit_factor body bodyChanged
  if t.cf || t.cb then
    let extent := O.simplify (.Add (.Sub mx mn) (.IntImm 1))
    let fb := factorChoose O func.name storage_dim opName loop_min loop_max extent
      explicit_factor t.body t.changed
    match fb.factor with
    | some factor =>
      let r := foldS func.name d factor fb.body
      let s : Stmt × Bool × Option Semaphore × Nat :=
        if func.schedule.async then
          let sr := synthSemaphore O func.name opName loop_var loop_min t.cf
            max_provided min_provided min_required max_required factor extent r.1 c
          (sr.body, true, some sr.sema, sr.counter)
        else (r.1, fb.changed || r.2, none, c)
      let fold : Fold := ⟨d, factor, s.2.2.1⟩
      let min_next := substitute opName (.Add loop_var (.IntImm 1)) mn
      if O.can_prove (.LT mx min_next) then
        .fold_continue s.1 s.2.1 fold s.2.2.2
      else
        if s.2.1 then
          .ret (.For opName opMin opExtent ft s.1) true fold s.2.2.2
        else
          .ret (.For opName opMin opExtent ft origBody) false fold s.2.2.2
    | none => .skip fb.body fb.changed c
  else
    .skip t.body t.changed c

/-- The per-dimension loop of visit(For): try each storage dimension from
outermost (highest index) in.  `d + 1` plays the role of the loop counter
`i`; the dimension examined is `d = i - 1`. -/
def tryDims (O : Oracles) (func : Func) (eo : Bool)
    (opName : String) (opMin opExtent : Expr) (ft : ForType) (origBody : Stmt)
    (loop_var loop_min loop_max : Expr)
    (provided required box : Box) :
    Nat → Stmt → Bool → Nat → TryResult
  | 0, body, bodyChanged, c => .more body bodyChanged [] c
  | d + 1, body, bodyChanged, c =>
    match stepDim O func eo opName opMin opExtent ft origBody loop_var loop_min loop_max
      provided required box d body bodyChanged c with
    | .ret st ch fold c2 => .done st ch [fold] c2
    | .fold_continue b2 ch fold c2 =>
      match tryDims O func eo opName opMin opExtent ft origBody loop_var loop_min loop_max
        provided required box d b2 ch c2 with
      | .done st ch2 folds c3 => .done st ch2 (fold :: folds) c3
      | .more b3 ch2 folds c3 => .more b3 ch2 (fold :: folds) c3
    | .skip b2 ch c2 =>
      tryDims O func eo opName opMin opExtent ft origBody loop_var loop_min loop_max
        provided required box d b2 ch c2

theorem forCount_foldS (f : String) (d : Nat) (k : Expr) (s : Stmt) :
    forCount (foldS f d k s).1 = forCount s := by
  induction s with
  | Evaluate e => simp [foldS, forCount]
  | Provide n vals args =>
    simp only [foldS]
    split <;> simp [forCount]
  | Block a b iha ihb => simp [foldS, forCount, iha, ihb]
  | LetStmt n v b ih => simp [foldS, forCount, ih]
  | AssertStmt c m => simp [foldS, forCount]
  | ProducerConsumer n p b ih => simp [foldS, forCount, ih]
  | For n mn ex ft b ih => simp [foldS, forCount, ih]
  | Acquire a c b ih => simp [foldS, forCount, ih]
  | Realize n bounds b ih => simp [foldS, forCount, ih]

theorem forCount_synthSemaphore (O : Oracles) (fname x : String)
    (loop_var loop_min : Expr) (cf : Bool)
    (mp mnp mnr mxr factor extent : Expr) (body : Stmt) (c : Nat) :
    forCount (synthSemaphore O fname x loop_var loop_min cf mp mnp mnr mxr factor extent
      body c).body = forCount body := by
  simp [synthSemaphore, forCount]

theorem dirDecide_forCount (O : Oracles) (func : Func) (eo : Bool) (opName : String)
    (lv : Expr) (mn mx mp mnp : Expr) (sd : StorageDim) (ef : Option Expr)
    (body : Stmt) (ch : Bool) :
    forCount (dirDecide O func eo opName lv mn mx mp mnp sd ef body ch).body =
      forCount body := by
  simp only [dirDecide]
  repeat' split
  all_goals simp [forCount]

theorem factorChoose_forCount (O : Oracles) (fname : String) (sd : StorageDim)
    (opName : String) (lmn lmx extent : Expr) (ef : Option Expr)
    (body : Stmt) (ch : Bool) :
    forCount (factorChoose O fname sd opName lmn lmx extent ef body ch).body =
      forCount body := by
  cases ef <;> simp [factorChoose, forCount]

theorem stepDim_fold_continue_forCount
    (O : Oracles) (func : Func) (eo : Bool) (opName : String) (opMin opExtent : Expr)
    (ft : ForType) (origBody : Stmt) (lv lmn lmx : Expr) (prov req box : Box)
    (d : Nat) (body : Stmt) (ch : Bool) (c : Nat)
    (b2 : Stmt) (ch2 : Bool) (fo : Fold) (c2 : Nat)
    (h : stepDim O func eo opName opMin opExtent ft origBody lv lmn lmx prov req box
      d body ch c = .fold_continue b2 ch2 fo c2) : forCount b2 = forCount body := by
  simp only [stepDim] at h
  repeat' split at h
  all_goals
    first
      | exact (StepResult.noConfusion h)
      | (cases h
         simp [forCount, forCount_foldS, forCount_synthSemaphore, dirDecide_forCount,
           factorChoose_forCount])

theorem stepDim_skip_forCount
    (O : Oracles) (func : Func) (eo : Bool) (opName : String) (opMin opExtent : Expr)
    (ft : ForType) (origBody : Stmt) (lv lmn lmx : Expr) (prov req box : Box)
    (d : Nat) (body : Stmt) (ch : Bool) (c : Nat)
    (b2 : Stmt) (ch2 : Bool) (c2 : Nat)
    (h : stepDim O func eo opName opMin opExtent ft origBody lv lmn lmx prov req box
      d body ch c = .skip b2 ch2 c2) : forCount b2 = forCount body := by
  simp only [stepDim] at h
  repeat' split at h
  all_goals
    first
      | exact (StepResult.noConfusion h)
      | (cases h
         simp [forCount, forCount_foldS, forCount_synthSemaphore, dirDecide_forCount,
           factorChoose_forCount])

theorem tryDims_more_forCount
    (O : Oracles) (func : Func) (eo : Bool) (opName : String) (opMin opExtent : Expr)
    (ft : ForType) (origBody : Stmt) (lv lmn lmx : Expr) (prov req box : Box) :
    ∀ (i : Nat) (body : Stmt) (ch : Bool) (c : Nat) (b2 : Stmt) (ch2 : Bool)
      (folds : List Fold) (c2 : Nat),
      tryDims O func eo opName opMin opExtent ft origBody lv lmn lmx prov req box
        i body ch c = .more b2 ch2 folds c2 → forCount b2 = forCount body := by
  intro i
  induction i with
  | zero =>
    intro body ch c b2 ch2 folds c2 h
    simp only [tryDims] at h
    cases h
    rfl
  | succ d ih =>
    intro body ch c b2 ch2 folds c2 h
    simp only [tryDims] at h
    split at h
    · exact (TryResult.noConfusion h)
    · rename_i b1 ch1 fold c1 heq
      have hs := stepDim_fold_continue_forCount O func eo opName opMin opExtent ft origBody
        lv lmn lmx prov req box d body ch c b1 ch1 fold c1 heq
      split at h
      · exact (TryResult.noConfusion h)
      · rename_i b3 ch3 folds3 c3 heq2
        cases h
        rw [ih _ _ _ _ _ _ _ heq2, hs]
    · rename_i b1 ch1 c1 heq
      have hs := stepDim_skip_forCount O func eo opName opMin opExtent ft origBody
        lv lmn lmx prov req box d body ch c b1 ch1 c1 heq
      rw [ih _ _ _ _ _ _ _ h, hs]

/-- Result of a planner mutation: the rewritten statement, the changed
flag (C++ pointer identity with the input), the accumulated fold records
(the dims_folded member of the C++ class, in push order) and the
fresh-name counter. -/
structure MutResult where
  stmt : Stmt
  changed : Bool
  folds : List Fold
  counter : Nat

theorem lex_of_le_of_lt {a b c d : Nat} (h1 : a ≤ b) (h2 : c < d) :
    Prod.Lex (· < ·) (· < ·) (a, c) (b, d) := by
  rcases Nat.lt_or_ge a b with h | h
  · exact Prod.Lex.left _ _ h
  · have : a = b := Nat.le_antisymm h1 h
    subst this
    exact Prod.Lex.right _ h2

/-- AttemptStorageFoldingOfFunction as a mutator: stop at the producer
node of the function itself, stop at parallel/vectorized loops, run the
per-dimension loop on serial/unrolled loops and, when no early return
happened and the provided region covers the required region, recurse into
the (possibly already rewritten) loop body; everywhere else the generic
IRMutator recursion applies (the class overrides no expression visitor,
so expressions pass through unchanged). -/
def attemptFold (O : Oracles) (func : Func) (eo : Bool) : Stmt → Nat → MutResult
  | .Evaluate e, c => ⟨.Evaluate e, false, [], c⟩
  | .Provide n v a, c => ⟨.Provide n v a, false, [], c⟩
  | .AssertStmt a m, c => ⟨.AssertStmt a m, false, [], c⟩
  | .Block a b, c =>
    let ra := attemptFold O func eo a c
    let rb := attemptFold O func eo b ra.counter
    ⟨.Block ra.stmt rb.stmt, ra.changed || rb.changed, ra.folds ++ rb.folds, rb.counter⟩
  | .LetStmt n v b, c =>
    let r := attemptFold O func eo b c
    ⟨.LetStmt n v r.stmt, r.changed, r.folds, r.counter⟩
  | .ProducerConsumer n p b, c =>
    if n = func.name then ⟨.ProducerConsumer n p b, false, [], c⟩
    else
      let r := attemptFold O func eo b c
      ⟨.ProducerConsumer n p r.stmt, r.changed, r.folds, r.counter⟩
  | .Acquire s cnt b, c =>
    let r := attemptFold O func eo b c
    ⟨.Acquire s cnt r.stmt, r.changed, r.folds, r.counter⟩
  | .Realize n bounds b, c =>
    let r := attemptFold O func eo b c
    ⟨.Realize n bounds r.stmt, r.changed, r.folds, r.counter⟩
  | .For n mn ex ft b, c =>
    if ft = .Serial ∨ ft = .Unrolled then
      let provided := O.box_provided b func.name
      let required := O.box_required b func.name
      let box := O.box_union provided required
      match htd : tryDims O func eo n mn ex ft b (.Var .i32 n) (.Var .i32 (n ++ ".loop_min"))
          (.Var .i32 (n ++ ".loop_max")) provided required box box.length b false c with
      | .done st ch folds c2 => ⟨st, ch, folds, c2⟩
      | .more body ch folds c2 =>
        let rr : MutResult :=
          if O.box_contains provided required then
            let r2 := attemptFold O func eo body c2
            ⟨r2.stmt, ch || r2.changed, folds ++ r2.folds, r2.counter⟩
          else ⟨body, ch, folds, c2⟩
        if rr.changed then ⟨.For n mn ex ft rr.stmt, true, rr.folds, rr.counter⟩
        else ⟨.For n mn ex ft b, false, rr.folds, rr.counter⟩
    else ⟨.For n mn ex ft b, false, [], c⟩
termination_by s c => (forCount s, sizeOf s)
decreasing_by
  all_goals
    first
      | (apply lex_of_le_of_lt
         · simp only [forCount] <;> omega
         · simp_wf <;> omega)
      | (apply Prod.Lex.left
         have hfc := tryDims_more_forCount _ _ _ _ _ _ _ _ _ _ _ _ _ _ _ _ _ _ _ _ _ _ htd
         simp only [forCount]
         omega)

/-- Environment lookup used by StorageFolding::visit(Realize); a missing
entry behaves as a default-constructed Function. -/
def lookupFunc (env : List (String × Func)) (name : String) : Func :=
  ((env.find? (fun p => p.1 = name)).map Prod.snd).getD defaultFunc

/-- StorageFolding (the scope orchestrator): on each Realize, first mutate
the body, then detect special buffers (raising the user-facing
configuration error if such a buffer declares an explicit fold factor),
otherwise choose explicit-only mode from the producer count, run the
planner, and splice the folds into the declared bounds, wrapping with
semaphore-initialization bindings.  user_assert is modelled as an
`Except.error`; the returned Bool is the changed flag. -/
def storageFoldingMutate (O : Oracles) (env : List (String × Func)) :
    Stmt → Nat → Except String (Stmt × Bool × Nat)
  | .Evaluate e, c => .ok (.Evaluate e, false, c)
  | .Provide n v a, c => .ok (.Provide n v a, false, c)
  | .AssertStmt a m, c => .ok (.AssertStmt a m, false, c)
  | .Block a b, c => do
    let (a1, cha, c1) ← storageFoldingMutate O env a c
    let (b1, chb, c2) ← storageFoldingMutate O env b c1
    .ok (.Block a1 b1, cha || chb, c2)
  | .LetStmt n v b, c => do
    let (b1, ch, c1) ← storageFoldingMutate O env b c
    .ok (.LetStmt n v b1, ch, c1)
  | .ProducerConsumer n p b, c => do
    let (b1, ch, c1) ← storageFoldingMutate O env b c
    .ok (.ProducerConsumer n p b1, ch, c1)
  | .For n mn ex ft b, c => do
    let (b1, ch, c1) ← storageFoldingMutate O env b c
    .ok (.For n mn ex ft b1, ch, c1)
  | .Acquire s cnt b, c => do
    let (b1, ch, c1) ← storageFoldingMutate O env b c
    .ok (.Acquire s cnt b1, ch, c1)
  | .Realize name bounds body, c => do
    let (body1, ch1, c1) ← storageFoldingMutate O env body c
    let special := is_buffer_special name (.Realize name bounds body)
    let func := lookupFunc env name
    if special then
      match func.schedule.storage_dims.find? (fun sd => sd.fold_factor.isSome) with
      | some sd =>
        .error ("Dimension " ++ sd.var ++ " of " ++ name ++
          " cannot be folded because it is accessed by extern or device stages.")
      | none =>
        if ch1 then .ok (.Realize name bounds body1, true, c1)
        else .ok (.Realize name bounds body, false, c1)
    else
      let eo : Bool := count_producers body1 name != 1
      let r := attemptFold O func eo body1 c1
      if (ch1 || r.changed) = false then
        .ok (.Realize name bounds body, false, r.counter)
      else if r.folds.isEmpty then
        .ok (.Realize name bounds r.stmt, true, r.counter)
      else
        let bounds2 := r.folds.foldl (fun bs fd => bs.set fd.dim (Expr.IntImm 0, fd.factor)) bounds
        let base := Stmt.Realize name bounds2 r.stmt
        let wrapped := r.folds.foldl (fun st fd =>
          match fd.semaphore with
          | some sema =>
            Stmt.LetStmt sema.name (.Call "halide_make_semaphore" [sema.init] .Extn) st
          | none => st) base
        .ok (wrapped, true, r.counter)

/-- The scoped constant environment of SubstituteInConstants (Scope<Expr>
with push/pop made explicit as a cons list; lookup finds the innermost
pushed binding). -/
abbrev CScope := List (String × Expr)

/-- Scope lookup. -/
def scope_get (sc : CScope) (n : String) : Option Expr :=
  (sc.find? (fun p => p.1 = n)).map Prod.snd

/-- SubstituteInConstants::visit(Variable) together with the generic
IRMutator recursion over expressions: replace every variable that is
bound in the scope by its (constant) value. -/
def sicE (sc : CScope) : Expr → Expr
  | .IntImm n => .IntImm n
  | .StrImm s => .StrImm s
  | .Var ty n =>
    match scope_get sc n with
    | some v => v
    | none => .Var ty n
  | .Add a b => .Add (sicE sc a) (sicE sc b)
  | .Sub a b => .Sub (sicE sc a) (sicE sc b)
  | .Mul a b => .Mul (sicE sc a) (sicE sc b)
  | .Mod a b => .Mod (sicE sc a) (sicE sc b)
  | .LT a b => .LT (sicE sc a) (sicE sc b)
  | .GT a b => .GT (sicE sc a) (sicE sc b)
  | .LE a b => .LE (sicE sc a) (sicE sc b)
  | .GE a b => .GE (sicE sc a) (sicE sc b)
  | .And a b => .And (sicE sc a) (sicE sc b)
  | .Select c t f => .Select (sicE sc c) (sicE sc t) (sicE sc f)
  | .Call n args ct => .Call n (args.attach.map (fun a => sicE sc a.1)) ct
termination_by e => sizeOf e
decreasing_by all_goals
  simp_wf <;>
  first
    | omega
    | (have h := List.sizeOf_lt_of_mem a.2; omega)

/-- SubstituteInConstants (the constant-propagation prepass): simplify the
right-hand side of every LetStmt; when the simplified value is a
constant, push it for the traversal of the body (and pop afterwards:
the cons falls out of scope); when it is not a constant, the body is
traversed in the unmodified outer scope.  `simp` is the simplifier
collaborator. -/
def sicS (simp : Expr → Expr) (sc : CScope) : Stmt → Stmt
  | .LetStmt n v b =>
    let value := simp (sicE sc v)
    let body :=
      if is_const value then sicS simp ((n, value) :: sc) b
      else sicS simp sc b
    .LetStmt n value body
  | .Evaluate e => .Evaluate (sicE sc e)
  | .Provide n vals args => .Provide n (vals.map (sicE sc)) (args.map (sicE sc))
  | .Block a b => .Block (sicS simp sc a) (sicS simp sc b)
  | .AssertStmt a m => .AssertStmt (sicE sc a) (sicE sc m)
  | .ProducerConsumer n p b => .ProducerConsumer n p (sicS simp sc b)
  | .For n mn ex ft b => .For n (sicE sc mn) (sicE sc ex) ft (sicS simp sc b)
  | .Acquire s cnt b => .Acquire (sicE sc s) (sicE sc cnt) (sicS simp sc b)
  | .Realize n bounds b =>
    .Realize n (bounds.map (fun p => (sicE sc p.1, sicE sc p.2))) (sicS simp sc b)

/-- storage_folding (lines 467-471): the constant-substitution prepass
followed by the orchestrator.  The Nat argument is the global fresh-name
counter state behind unique_name, made explicit. -/
def storage_folding (O : Oracles) (env : List (String × Func)) (s : Stmt) (c : Nat) :
    Except String (Stmt × Nat) :=
  match storageFoldingMutate O env (sicS O.simplify [] s) c with
  | .ok (t, _, c2) => .ok (t, c2)
  | .error e => .error e

/-- The fold records carried by either outcome of the per-dimension loop. -/
def TryResult.folds : TryResult → List Fold
  | .done _ _ f _ => f
  | .more _ _ f _ => f

/-- Iteration space of a loop: `lo, lo+1, ..., lo+n-1`. -/
def iterList (lo : Int) : Nat → List Int
  | 0 => []
  | n + 1 => lo :: iterList (lo + 1) n

/-- Operational semantics of the emitted counting-semaphore protocol over
one loop execution: starting from the initial count, every iteration first
acquires its `to_acquire` slots and then releases its `to_release` slots;
the result is the final remaining count. -/
def runSema (acq rel : Int → Int) : Int → List Int → Int
  | cnt, [] => cnt
  | cnt, i :: is => runSema acq rel (cnt - acq i + rel i) is

theorem runSema_eq (acq rel : Int → Int) (l : List Int) :
    ∀ cnt : Int, runSema acq rel cnt l = cnt - (l.map acq).sum + (l.map rel).sum := by
  induction l with
  | nil => intro cnt; simp [runSema]
  | cons i is ih =>
    intro cnt
    simp only [runSema, ih, List.map_cons, List.sum_cons]
    ring

/-- A trivial instantiation of the collaborator oracles, used to evaluate
the pass on concrete inputs. -/
def trivOracles : Oracles where
  box_provided := fun _ _ => []
  box_required := fun _ _ => []
  box_union := fun a _ => a
  box_contains := fun _ _ => false
  simplify := fun e => e
  is_monotonic := fun _ _ => .Unknown
  find_constant_bound := fun _ _ _ _ => none
  can_prove := fun _ => false

/-- A concrete instantiation of the collaborator oracles for an
asynchronous sliding-window scenario: the buffer named f is written and
read at index equal to the loop variable, which is monotonically
increasing. -/
def concOracles : Oracles where
  box_provided := fun _ n => if n = "f" then [⟨.Var .i32 "y", .Var .i32 "y"⟩] else []
  box_required := fun _ n => if n = "f" then [⟨.Var .i32 "y", .Var .i32 "y"⟩] else []
  box_union := fun a _ => a
  box_contains := fun _ _ => false
  simplify := fun e => e
  is_monotonic := fun e v =>
    match e with
    | .Var .i32 n => if n = v then .Increasing else .Unknown
    | _ => .Unknown
  find_constant_bound := fun _ _ _ _ => none
  can_prove := fun _ => false

/-- Schedule: one storage dimension with explicit fold factor 8, forward
direction, asynchronous stage. -/
def fAsync : Func := ⟨"f", ⟨[⟨"x", some (.IntImm 8), true⟩], true⟩⟩

/-- The same schedule with async off. -/
def fSync : Func := ⟨"f", ⟨[⟨"x", some (.IntImm 8), true⟩], false⟩⟩

/-- C9: for every For loop whose kind is neither serial nor unrolled
(parallel or vectorized), the planner returns the loop node unchanged: the
body is not rewritten, no fold is recorded, and nothing nested inside is
considered (the visit returns without recursing). -/
theorem C9_parallel_loop_stops_descent (O : Oracles) (func : Func) (eo : Bool)
    (n : String) (mn ex : Expr) (ft : ForType) (b : Stmt) (c : Nat)
    (h1 : ft ≠ .Serial) (h2 : ft ≠ .Unrolled) :
    attemptFold O func eo (.For n mn ex ft b) c = ⟨.For n mn ex ft b, false, [], c⟩ := by
  rw [attemptFold]
  simp [h1, h2]

/-- C9 witness: a vectorized loop over a body that the planner would
otherwise rewrite is returned untouched. -/
theorem C9_witness :
    attemptFold concOracles fAsync false
      (.For "y" (.IntImm 0) (.IntImm 10) .Vectorized
        (.ProducerConsumer "f" true (.Provide "f" [.IntImm 0] [.Var .i32 "y"]))) 7 =
      ⟨.For "y" (.IntImm 0) (.IntImm 10) .Vectorized
        (.ProducerConsumer "f" true (.Provide "f" [.IntImm 0] [.Var .i32 "y"])),
       false, [], 7⟩ :=
  C9_parallel_loop_stops_descent concOracles fAsync false "y" (.IntImm 0) (.IntImm 10)
    .Vectorized (.ProducerConsumer "f" true (.Provide "f" [.IntImm 0] [.Var .i32 "y"])) 7
    (by decide) (by decide)

/-- C1: every automatically derived fold factor comes from a provable
constant extent bound v with v <= 1024, and equals next_power_of_two v;
for 1 <= v <= 1024 that factor is a power of two, at least v, and at most
1024; if the bound exceeds 1024, is not a constant, or does not exist, no
automatic fold factor is produced. -/
theorem C1_auto_factor_pow2_cap :
    (∀ me f, autoFoldFactor me = some f →
      ∃ v : Int, me = some (.IntImm v) ∧ v ≤ 1024 ∧ f = .IntImm (next_power_of_two v)) ∧
    (∀ v : Int, 1 ≤ v → v ≤ 1024 →
      autoFoldFactor (some (.IntImm v)) = some (.IntImm (next_power_of_two v)) ∧
      (∃ k : ℕ, next_power_of_two v = 2 ^ k) ∧
      v ≤ next_power_of_two v ∧ next_power_of_two v ≤ 1024) ∧
    (∀ v : Int, 1024 < v → autoFoldFactor (some (.IntImm v)) = none) ∧
    (∀ me, as_const_int me = none → autoFoldFactor (some me) = none) ∧
    autoFoldFactor none = none := by
  refine ⟨?_, ?_, ?_, ?_, rfl⟩
  · intro me f h
    match me with
    | none => simp [autoFoldFactor] at h
    | some e =>
      match e with
      | .IntImm v =>
        refine ⟨v, rfl, ?_, ?_⟩ <;>
          · simp only [autoFoldFactor, as_const_int] at h
            split at h <;> simp_all
      | .StrImm s => simp [autoFoldFactor, as_const_int] at h
      | .Var ty nm => simp [autoFoldFactor, as_const_int] at h
      | .Add a b => simp [autoFoldFactor, as_const_int] at h
      | .Sub a b => simp [autoFoldFactor, as_const_int] at h
      | .Mul a b => simp [autoFoldFactor, as_const_int] at h
      | .Mod a b => simp [autoFoldFactor, as_const_int] at h
      | .LT a b => simp [autoFoldFactor, as_const_int] at h
      | .GT a b => simp [autoFoldFactor, as_const_int] at h
      | .LE a b => simp [autoFoldFactor, as_const_int] at h
      | .GE a b => simp [autoFoldFactor, as_const_int] at h
      | .And a b => simp [autoFoldFactor, as_const_int] at h
      | .Select a b cc => simp [autoFoldFactor, as_const_int] at h
      | .Call nm args ct => simp [autoFoldFactor, as_const_int] at h
  · intro v h1 h2
    have hb : (1 : ℕ) < 2 := by norm_num
    have hle : v.toNat ≤ 1024 := by omega
    have hpow : v.toNat ≤ 2 ^ Nat.clog 2 v.toNat := Nat.le_pow_clog hb v.toNat
    have hclog : Nat.clog 2 v.toNat ≤ 10 := by
      have : v.toNat ≤ 2 ^ 10 := by norm_num; omega
      exact (Nat.le_pow_iff_clog_le hb).mp this
    have hcap : 2 ^ Nat.clog 2 v.toNat ≤ 2 ^ 10 := Nat.pow_le_pow_right (by norm_num) hclog
    refine ⟨by simp [autoFoldFactor, as_const_int, h2], ⟨Nat.clog 2 v.toNat, rfl⟩, ?_, ?_⟩
    · have : (v.toNat : Int) ≤ ((2 ^ Nat.clog 2 v.toNat : ℕ) : Int) := by exact_mod_cast hpow
      simp only [next_power_of_two]
      push_cast at this ⊢
      omega
    · have : ((2 ^ Nat.clog 2 v.toNat : ℕ) : Int) ≤ ((2 ^ 10 : ℕ) : Int) := by exact_mod_cast hcap
      simp only [next_power_of_two]
      push_cast at this ⊢
      omega
  · intro v hv
    simp only [autoFoldFactor, as_const_int]
    split <;> simp_all
    omega
  · intro me hme
    simp [autoFoldFactor, hme]

/-- C1 witness: for a provable constant extent bound of 3 the automatic
factor is next_power_of_two 3 = 4: a power of two, at least the bound, and
at most 1024. -/
theorem C1_witness :
    autoFoldFactor (some (.IntImm 3)) = some (.IntImm (next_power_of_two 3)) ∧
    (∃ k : ℕ, next_power_of_two 3 = 2 ^ k) ∧
    (3 : Int) ≤ next_power_of_two 3 ∧ next_power_of_two 3 ≤ 1024 :=
  C1_auto_factor_pow2_cap.2.1 3 (by norm_num) (by norm_num)

/-- C2: slot conservation of the emitted semaphore amounts.  For the
acquire/release expressions the synthesizer emits (forward or backward
direction), over any iteration space and any initial endowment: the total
acquired equals the total released plus the initial endowment minus the
final remaining count of the semaphore process. -/
theorem C2_semaphore_conservation (ρ : String → Int) (x : String)
    (mp mr mnp mxr : Expr) (lo : Int) (n : Nat) (init : Int) :
    (((iterList lo n).map
        (fun i => evalE (upd ρ x i) (acquireExprFwd x (.Var .i32 x) mp))).sum =
      ((iterList lo n).map
        (fun i => evalE (upd ρ x i) (releaseExprFwd x (.Var .i32 x) mr))).sum + init -
      runSema (fun i => evalE (upd ρ x i) (acquireExprFwd x (.Var .i32 x) mp))
        (fun i => evalE (upd ρ x i) (releaseExprFwd x (.Var .i32 x) mr))
        init (iterList lo n)) ∧
    (((iterList lo n).map
        (fun i => evalE (upd ρ x i) (acquireExprBwd x (.Var .i32 x) mnp))).sum =
      ((iterList lo n).map
        (fun i => evalE (upd ρ x i) (releaseExprBwd x (.Var .i32 x) mxr))).sum + init -
      runSema (fun i => evalE (upd ρ x i) (acquireExprBwd x (.Var .i32 x) mnp))
        (fun i => evalE (upd ρ x i) (releaseExprBwd x (.Var .i32 x) mxr))
        init (iterList lo n)) := by
  constructor <;>
    · rw [runSema_eq]
      ring

/-- C8: for every asynchronous fold, when the fudge term (the loop min
substituted into extent - to_acquire, simplified) is provably constant,
the semaphore initial count is factor - fudge and to_acquire is the raw
per-step amount; otherwise the initial count is the factor and to_acquire
becomes a conditional that evaluates to the whole extent on the first
iteration and to the per-step delta on every later one. -/
theorem C8_semaphore_init_fudge (O : Oracles) (fname x : String)
    (lv lmn : Expr) (cf : Bool) (mp mnp mnr mxr factor extent : Expr)
    (body : Stmt) (c : Nat) (acq0 rel0 fudge : Expr)
    (hacq : acq0 = if cf then acquireExprFwd x lv mp else acquireExprBwd x lv mnp)
    (hrel : rel0 = if cf then releaseExprFwd x lv mnr else releaseExprBwd x lv mxr)
    (hfudge : fudge = O.simplify (substitute x lmn (.Sub extent acq0))) :
    (is_const fudge = true →
      synthSemaphore O fname x lv lmn cf mp mnp mnr mxr factor extent body c =
        ⟨.Acquire (.Var .handle (fname ++ ".folding_semaphore." ++ unique_name c)) acq0
          (.Block body (.Evaluate (.Call "halide_semaphore_release"
            [.Var .handle (fname ++ ".folding_semaphore." ++ unique_name c), rel0] .Extn))),
         ⟨fname ++ ".folding_semaphore." ++ unique_name c,
          .Var .handle (fname ++ ".folding_semaphore." ++ unique_name c),
          .Sub factor fudge⟩, c + 1⟩) ∧
    (is_const fudge = false →
      synthSemaphore O fname x lv lmn cf mp mnp mnr mxr factor extent body c =
        ⟨.Acquire (.Var .handle (fname ++ ".folding_semaphore." ++ unique_name c))
          (.Select (.GT lv lmn) (likelyE acq0) extent)
          (.Block body (.Evaluate (.Call "halide_semaphore_release"
            [.Var .handle (fname ++ ".folding_semaphore." ++ unique_name c), rel0] .Extn))),
         ⟨fname ++ ".folding_semaphore." ++ unique_name c,
          .Var .handle (fname ++ ".folding_semaphore." ++ unique_name c),
          factor⟩, c + 1⟩ ∧
      (∀ ρ : String → Int, evalE ρ lv = evalE ρ lmn →
        evalE ρ (.Select (.GT lv lmn) (likelyE acq0) extent) = evalE ρ extent) ∧
      (∀ ρ : String → Int, evalE ρ lmn < evalE ρ lv →
        evalE ρ (.Select (.GT lv lmn) (likelyE acq0) extent) = evalE ρ acq0)) := by
  subst hacq hrel hfudge
  constructor
  · intro hc
    cases cf <;> simp_all [synthSemaphore]
  · intro hc
    refine ⟨by cases cf <;> simp_all [synthSemaphore], ?_, ?_⟩
    · intro ρ hρ
      simp [evalE, hρ]
    · intro ρ hρ
      have hgt : evalE ρ lmn < evalE ρ lv := hρ
      simp only [evalE, likelyE]
      rw [if_pos hgt, if_pos (by norm_num)]

/-- C8 witness: with the identity simplifier and symbolic bounds the fudge
term is not constant, so the initial count is the factor itself and the
acquire amount is the first-iteration conditional. -/
theorem C8_witness :
    (synthSemaphore trivOracles "f" "y" (.Var .i32 "y") (.Var .i32 "y.loop_min") true
      (.Var .i32 "y") (.Var .i32 "y") (.Var .i32 "y") (.Var .i32 "y")
      (.IntImm 8) (.IntImm 1) (.Evaluate (.IntImm 0)) 0).sema.init = .IntImm 8 := by
  have h := (C8_semaphore_init_fudge trivOracles "f" "y" (.Var .i32 "y")
    (.Var .i32 "y.loop_min") true (.Var .i32 "y") (.Var .i32 "y") (.Var .i32 "y")
    (.Var .i32 "y") (.IntImm 8) (.IntImm 1) (.Evaluate (.IntImm 0)) 0
    _ _ _ rfl rfl rfl).2
    (by simp [trivOracles, acquireExprFwd, substitute, is_const])
  rw [h.1]

/-- A read of the given Halide function occurs somewhere in the
expression: a Call node with that name and Halide call type. -/
def reads_func (f : String) : Expr → Bool
  | .IntImm _ => false
  | .StrImm _ => false
  | .Var _ _ => false
  | .Add a b => reads_func f a || reads_func f b
  | .Sub a b => reads_func f a || reads_func f b
  | .Mul a b => reads_func f a || reads_func f b
  | .Mod a b => reads_func f a || reads_func f b
  | .LT a b => reads_func f a || reads_func f b
  | .GT a b => reads_func f a || reads_func f b
  | .LE a b => reads_func f a || reads_func f b
  | .GE a b => reads_func f a || reads_func f b
  | .And a b => reads_func f a || reads_func f b
  | .Select c t e => reads_func f c || reads_func f t || reads_func f e
  | .Call n args ct =>
    (decide (n = f) && decide (ct = CallType.Halide)) ||
      args.attach.any (fun a => reads_func f a.1)
termination_by e => sizeOf e
decreasing_by all_goals
  simp_wf <;>
  first
    | omega
    | (have h := List.sizeOf_lt_of_mem a.2; omega)

/-- A read or a write (Provide) of the given function occurs somewhere in
the statement: the sites FoldStorageOfFunction rewrites. -/
def touches_func (f : String) : Stmt → Bool
  | .Evaluate e => reads_func f e
  | .Provide n vals args =>
    decide (n = f) || vals.any (reads_func f) || args.any (reads_func f)
  | .Block a b => touches_func f a || touches_func f b
  | .LetStmt _ v b => reads_func f v || touches_func f b
  | .AssertStmt c m => reads_func f c || reads_func f m
  | .ProducerConsumer _ _ b => touches_func f b
  | .For _ mn ex _ b => reads_func f mn || reads_func f ex || touches_func f b
  | .Acquire s c b => reads_func f s || reads_func f c || touches_func f b
  | .Realize _ bounds b =>
    bounds.any (fun p => reads_func f p.1 || reads_func f p.2) || touches_func f b

theorem foldE_noop (f : String) (d : Nat) (k : Expr) :
    ∀ e, reads_func f e = false → foldE f d k e = (e, false) := by
  intro e
  induction e using foldE.induct f d k with
  | case1 n => intro h; simp [foldE]
  | case2 s => intro h; simp [foldE]
  | case3 ty n => intro h; simp [foldE]
  | case4 a b iha ihb =>
    intro h
    simp only [reads_func, Bool.or_eq_false_iff] at h
    simp [foldE, iha h.1, ihb h.2]
  | case5 a b iha ihb =>
    intro h
    simp only [reads_func, Bool.or_eq_false_iff] at h
    simp [foldE, iha h.1, ihb h.2]
  | case6 a b iha ihb =>
    intro h
    simp only [reads_func, Bool.or_eq_false_iff] at h
    simp [foldE, iha h.1, ihb h.2]
  | case7 a b iha ihb =>
    intro h
    simp only [reads_func, Bool.or_eq_false_iff] at h
    simp [foldE, iha h.1, ihb h.2]
  | case8 a b iha ihb =>
    intro h
    simp only [reads_func, Bool.or_eq_false_iff] at h
    simp [foldE, iha h.1, ihb h.2]
  | case9 a b iha ihb =>
    intro h
    simp only [reads_func, Bool.or_eq_false_iff] at h
    simp [foldE, iha h.1, ihb h.2]
  | case10 a b iha ihb =>
    intro h
    simp only [reads_func, Bool.or_eq_false_iff] at h
    simp [foldE, iha h.1, ihb h.2]
  | case11 a b iha ihb =>
    intro h
    simp only [reads_func, Bool.or_eq_false_iff] at h
    simp [foldE, iha h.1, ihb h.2]
  | case12 a b iha ihb =>
    intro h
    simp only [reads_func, Bool.or_eq_false_iff] at h
    simp [foldE, iha h.1, ihb h.2]
  | case13 c t e ihc iht ihe =>
    intro h
    simp only [reads_func, Bool.or_eq_false_iff] at h
    simp [foldE, ihc h.1.1, iht h.1.2, ihe h.2]
  | case14 n args ct hguard ih =>
    intro h
    simp [reads_func, hguard.1, hguard.2] at h
  | case15 n args ct hguard ih =>
    intro h
    simp only [reads_func, Bool.or_eq_false_iff, List.any_eq_false] at h
    obtain ⟨hname, hargs⟩ := h
    have hmap : args.attach.map (fun a => foldE f d k a.1) = args.map (fun a => (a, false)) := by
      rw [List.attach_map_coe args (fun a => foldE f d k a)]
      apply List.map_congr_left
      intro a ha
      apply ih ⟨a, ha⟩
      have := hargs ⟨a, ha⟩ (by simp)
      simpa using this
    rw [foldE]
    rw [hmap]
    have hid : List.map Prod.fst (List.map (fun a : Expr => (a, false)) args) = args := by
      rw [List.map_map]
      have h2 : (Prod.fst ∘ fun a : Expr => (a, false)) = id := rfl
      rw [h2, List.map_id]
    have hany : List.any (List.map (fun a : Expr => (a, false)) args) Prod.snd = false := by
      simp [List.any_eq_false]
    simp [hguard, hid, hany]

theorem foldS_noop (f : String) (d : Nat) (k : Expr) :
    ∀ s, touches_func f s = false → foldS f d k s = (s, false) := by
  intro s
  induction s with
  | Evaluate e =>
    intro h
    simp only [touches_func] at h
    simp [foldS, foldE_noop f d k e h]
  | Provide n vals args =>
    intro h
    simp only [touches_func, Bool.or_eq_false_iff, List.any_eq_false,
      decide_eq_false_iff_not] at h
    obtain ⟨⟨hn, hv⟩, ha⟩ := h
    have hvm : vals.map (foldE f d k) = vals.map (fun a => (a, false)) :=
      List.map_congr_left (fun a haa => foldE_noop f d k a (by simpa using hv a haa))
    have ham : args.map (foldE f d k) = args.map (fun a => (a, false)) :=
      List.map_congr_left (fun a haa => foldE_noop f d k a (by simpa using ha a haa))
    rw [foldS, hvm, ham]
    have h2 : (Prod.fst ∘ fun a : Expr => (a, false)) = id := rfl
    have hid1 : List.map Prod.fst (List.map (fun a : Expr => (a, false)) vals) = vals := by
      rw [List.map_map, h2, List.map_id]
    have hid2 : List.map Prod.fst (List.map (fun a : Expr => (a, false)) args) = args := by
      rw [List.map_map, h2, List.map_id]
    have hany1 : List.any (List.map (fun a : Expr => (a, false)) vals) Prod.snd = false := by
      simp [List.any_eq_false]
    have hany2 : List.any (List.map (fun a : Expr => (a, false)) args) Prod.snd = false := by
      simp [List.any_eq_false]
    simp [hn, hid1, hid2, hany1, hany2]
  | Block a b iha ihb =>
    intro h
    simp only [touches_func, Bool.or_eq_false_iff] at h
    simp [foldS, iha h.1, ihb h.2]
  | LetStmt n v b ih =>
    intro h
    simp only [touches_func, Bool.or_eq_false_iff] at h
    simp [foldS, foldE_noop f d k v h.1, ih h.2]
  | AssertStmt c m =>
    intro h
    simp only [touches_func, Bool.or_eq_false_iff] at h
    simp [foldS, foldE_noop f d k c h.1, foldE_noop f d k m h.2]
  | ProducerConsumer n p b ih =>
    intro h
    simp only [touches_func] at h
    simp [foldS, ih h]
  | For n mn ex ft b ih =>
    intro h
    simp only [touches_func, Bool.or_eq_false_iff] at h
    simp [foldS, foldE_noop f d k mn h.1.1, foldE_noop f d k ex h.1.2, ih h.2]
  | Acquire s cnt b ih =>
    intro h
    simp only [touches_func, Bool.or_eq_false_iff] at h
    simp [foldS, foldE_noop f d k s h.1.1, foldE_noop f d k cnt h.1.2, ih h.2]
  | Realize n bounds b ih =>
    intro h
    simp only [touches_func, Bool.or_eq_false_iff, List.any_eq_false] at h
    obtain ⟨hb, hbody⟩ := h
    have hm : bounds.map (fun p => (foldE f d k p.1, foldE f d k p.2)) =
        bounds.map (fun p => ((p.1, false), (p.2, false))) := by
      apply List.map_congr_left
      intro p hp
      have := hb p hp
      simp only [Bool.or_eq_true, not_or] at this
      rw [foldE_noop f d k p.1 (by simpa using this.1),
        foldE_noop f d k p.2 (by simpa using this.2)]
    rw [foldS, hm, ih hbody]
    have hid : List.map (fun p => (p.1.1, p.2.1))
        (List.map (fun p : Expr × Expr => ((p.1, false), (p.2, false))) bounds) = bounds := by
      rw [List.map_map]
      have h2 : ((fun p : (Expr × Bool) × (Expr × Bool) => (p.1.1, p.2.1)) ∘
          fun p : Expr × Expr => ((p.1, false), (p.2, false))) = id := rfl
      rw [h2, List.map_id]
    have hany : List.any
        (List.map (fun p : Expr × Expr => ((p.1, false), (p.2, false))) bounds)
        (fun p => p.1.2 || p.2.2) = false := by
      simp [List.any_eq_false]
    simp [hid, hany]

theorem any_map_general {α β : Type} (l : List α) (g : α → β) (p : β → Bool) :
    (l.map g).any p = l.any (fun a => p (g a)) := by
  induction l with
  | nil => simp
  | cons x xs ih => simp [ih]

/-- C3: the index rewriter contract.  (i) every write (Provide) of the
buffer is rewritten so its index argument at the folded dimension becomes
0 when the factor is the constant one and index mod factor otherwise;
(ii) every read (Halide Call) likewise; (iii) index arguments at every
other position are unchanged (whenever they do not themselves contain a
nested read of the folded buffer); (iv) accesses to any other buffer are
unchanged; (v) a subtree in which nothing is rewritten is returned as the
identical subtree with the changed flag false (sharing preserved). -/
theorem C3_index_rewriter_contract (f : String) (d : Nat) (k : Expr) :
    (∀ vals args, d < args.length →
      foldS f d k (.Provide f vals args) =
        (.Provide f (vals.map (fun a => (foldE f d k a).1))
          ((args.map (fun a => (foldE f d k a).1)).set d
            (if is_one k then .IntImm 0
             else .Mod ((args.map (fun a => (foldE f d k a).1)).getD d (.IntImm 0)) k)),
         true)) ∧
    (∀ args, d < args.length →
      foldE f d k (.Call f args .Halide) =
        (.Call f ((args.map (fun a => (foldE f d k a).1)).set d
            (if is_one k then .IntImm 0
             else .Mod ((args.map (fun a => (foldE f d k a).1)).getD d (.IntImm 0)) k))
          .Halide,
         true)) ∧
    (∀ (args : List Expr) (X : Expr) (j : Nat), j ≠ d →
      reads_func f (args.getD j (.IntImm 0)) = false →
      ((args.map (fun a => (foldE f d k a).1)).set d X).getD j (.IntImm 0) =
        args.getD j (.IntImm 0)) ∧
    (∀ n args ct, n ≠ f → (∀ a ∈ args, reads_func f a = false) →
      foldE f d k (.Call n args ct) = (.Call n args ct, false)) ∧
    (∀ s, touches_func f s = false → foldS f d k s = (s, false)) := by
  refine ⟨?_, ?_, ?_, ?_, foldS_noop f d k⟩
  · intro vals args _
    rw [foldS]
    simp only [List.map_map]
    simp
    try rfl
  · intro args _
    rw [foldE]
    rw [List.attach_map_coe args (foldE f d k)]
    simp only [List.map_map]
    simp
    try rfl
  · intro args X j hj hr
    rw [List.getD_eq_getElem?_getD, List.getElem?_set_ne (Ne.symm hj), List.getElem?_map]
    cases hx : args[j]? with
    | none => simp [List.getD_eq_getElem?_getD, hx]
    | some a =>
      have hga : args.getD j (.IntImm 0) = a := by
        simp [List.getD_eq_getElem?_getD, hx]
      rw [hga] at hr
      simp [hga, hx, foldE_noop f d k a hr]
  · intro n args ct hn hargs
    apply foldE_noop
    simp only [reads_func, Bool.or_eq_false_iff, List.any_eq_false]
    constructor
    · simp [hn]
    · intro x _
      simp [hargs x.1 x.2]

/-- C3 witness: folding buffer f at dimension 0 by factor 4 rewrites the
read f(y) to f(y mod 4), and an unrelated buffer g is untouched. -/
theorem C3_witness :
    foldE "f" 0 (.IntImm 4) (.Call "f" [.Var .i32 "y"] .Halide) =
      (.Call "f" [.Mod (.Var .i32 "y") (.IntImm 4)] .Halide, true) ∧
    foldE "f" 0 (.IntImm 4) (.Call "g" [.Var .i32 "y"] .Halide) =
      (.Call "g" [.Var .i32 "y"] .Halide, false) := by
  constructor
  · have h := (C3_index_rewriter_contract "f" 0 (.IntImm 4)).2.1 [.Var .i32 "y"]
      (by norm_num)
    rw [h]
    simp [foldE, is_one]
  · exact (C3_index_rewriter_contract "f" 0 (.IntImm 4)).2.2.2.1 "g" [.Var .i32 "y"]
      .Halide (by decide) (by intro a ha; simp at ha; subst ha; simp [reads_func])

/-- C10: the read rewrite is gated on the call type.  A Call with the
folded function name but a non-Halide call type receives only the generic
argument recursion (no index remap at the folded dimension); if its
arguments contain no read of the buffer it is returned fully unchanged.
A write (Provide) is rewritten based on the buffer name alone, with no
call-type condition. -/
theorem C10_call_type_gating (f : String) (d : Nat) (k : Expr) :
    (∀ args ct, ct ≠ .Halide →
      foldE f d k (.Call f args ct) =
        (.Call f (args.map (fun a => (foldE f d k a).1)) ct,
         args.any (fun a => (foldE f d k a).2))) ∧
    (∀ args ct, ct ≠ .Halide → (∀ a ∈ args, reads_func f a = false) →
      foldE f d k (.Call f args ct) = (.Call f args ct, false)) ∧
    (∀ vals args,
      foldS f d k (.Provide f vals args) =
        (.Provide f (vals.map (fun a => (foldE f d k a).1))
          ((args.map (fun a => (foldE f d k a).1)).set d
            (if is_one k then .IntImm 0
             else .Mod ((args.map (fun a => (foldE f d k a).1)).getD d (.IntImm 0)) k)),
         true)) := by
  refine ⟨?_, ?_, ?_⟩
  · intro args ct hct
    rw [foldE]
    rw [List.attach_map_coe args (foldE f d k)]
    have hguard : ¬(f = f ∧ ct = CallType.Halide) := by
      intro hc
      exact hct hc.2
    simp only [List.map_map]
    simp [hguard, hct, any_map_general args (foldE f d k) Prod.snd]
    try rfl
  · intro args ct hct hargs
    apply foldE_noop
    simp only [reads_func, Bool.or_eq_false_iff, List.any_eq_false]
    constructor
    · simp [hct]
    · intro x _
      simp [hargs x.1 x.2]
  · intro vals args
    rw [foldS]
    simp only [List.map_map]
    simp
    try rfl

/-- C10 witness: an extern-typed call named f keeps its index argument
unrewritten, while the Provide of f is rewritten. -/
theorem C10_witness :
    foldE "f" 0 (.IntImm 4) (.Call "f" [.Var .i32 "y"] .Extn) =
      (.Call "f" [.Var .i32 "y"] .Extn, false) ∧
    foldS "f" 0 (.IntImm 4) (.Provide "f" [.IntImm 7] [.Var .i32 "y"]) =
      (.Provide "f" [.IntImm 7] [.Mod (.Var .i32 "y") (.IntImm 4)], true) := by
  constructor
  · exact (C10_call_type_gating "f" 0 (.IntImm 4)).2.1 [.Var .i32 "y"] .Extn
      (by decide) (by intro a ha; simp at ha; subst ha; simp [reads_func])
  · have h := (C10_call_type_gating "f" 0 (.IntImm 4)).2.2 [.IntImm 7] [.Var .i32 "y"]
    rw [h]
    simp [foldE, is_one]

/-- C4 counterexample: take the statement
  let x = 5 in let x = y in evaluate x.
The inner binding of x has a non-constant value, so SubstituteInConstants
does not push it; the use of x in the innermost body is nevertheless
replaced by the constant 5 of the enclosing binding of the same name,
although lexically it refers to the inner, non-constant binding.  The
claim says such a use is never replaced. -/
theorem C4_counterexample :
    sicS (fun e => e) []
      (.LetStmt "x" (.IntImm 5)
        (.LetStmt "x" (.Var .i32 "y") (.Evaluate (.Var .i32 "x")))) =
      .LetStmt "x" (.IntImm 5)
        (.LetStmt "x" (.Var .i32 "y") (.Evaluate (.IntImm 5))) ∧
    sicS (fun e => e) []
      (.LetStmt "x" (.IntImm 5)
        (.LetStmt "x" (.Var .i32 "y") (.Evaluate (.Var .i32 "x")))) ≠
      .LetStmt "x" (.IntImm 5)
        (.LetStmt "x" (.Var .i32 "y") (.Evaluate (.Var .i32 "x"))) := by
  constructor
  · simp [sicS, sicE, scope_get, is_const, List.find?]
  · simp [sicS, sicE, scope_get, is_const, List.find?]

/-- C4 amended: the constant-propagation prepass respects lexical
shadowing only for constant-valued bindings.  A LetStmt whose simplified
value is a constant shadows enclosing bindings of the same name within
its body (uses refer to the innermost constant); but when the simplified
value is not a constant, the binding is not pushed, and uses of the name
inside its body are still replaced by the constant value of an enclosing
binding of the same name. -/
theorem C4_amended_shadowing (simp0 : Expr → Expr) (n y : String) (c : Int)
    (hy : n ≠ y)
    (h1 : simp0 (.IntImm c) = .IntImm c)
    (h2 : simp0 (.Var .i32 y) = .Var .i32 y) :
    sicS simp0 []
      (.LetStmt n (.IntImm c)
        (.LetStmt n (.Var .i32 y) (.Evaluate (.Var .i32 n)))) =
      .LetStmt n (.IntImm c)
        (.LetStmt n (.Var .i32 y) (.Evaluate (.IntImm c))) ∧
    (∀ c2 : Int, simp0 (.IntImm c2) = .IntImm c2 →
      sicS simp0 []
        (.LetStmt n (.IntImm c)
          (.LetStmt n (.IntImm c2) (.Evaluate (.Var .i32 n)))) =
        .LetStmt n (.IntImm c)
          (.LetStmt n (.IntImm c2) (.Evaluate (.IntImm c2)))) := by
  constructor
  · simp [sicS, sicE, scope_get, is_const, List.find?, h1, h2, hy, Ne.symm hy]
  · intro c2 hc2
    simp [sicS, sicE, scope_get, is_const, List.find?, h1, hc2]

/-- C4 witness for the amended claim, at the identity simplifier. -/
theorem C4_witness :
    sicS (fun e => e) []
      (.LetStmt "x" (.IntImm 5)
        (.LetStmt "x" (.IntImm 7) (.Evaluate (.Var .i32 "x")))) =
      .LetStmt "x" (.IntImm 5)
        (.LetStmt "x" (.IntImm 7) (.Evaluate (.IntImm 7))) :=
  (C4_amended_shadowing (fun e => e) "x" "y" 5 (by decide) rfl rfl).2 7 rfl

theorem dirDecide_explicit_only (O : Oracles) (func : Func) (opName : String)
    (lv mn mx mp mnp : Expr) (sd : StorageDim) (ef : Option Expr) (body : Stmt) (ch : Bool)
    (h : ((dirDecide O func true opName lv mn mx mp mnp sd ef body ch).cf ||
          (dirDecide O func true opName lv mn mx mp mnp sd ef body ch).cb) = true) :
    ef.isSome = true := by
  by_cases hef : ef.isSome = true
  · exact hef
  · exfalso
    simp [dirDecide, hef] at h

/-- In explicit-only mode, every fold the per-dimension step produces
carries the schedule-declared explicit factor of its dimension. -/
theorem stepDim_explicit_only_fold
    (O : Oracles) (func : Func) (opName : String) (opMin opExtent : Expr)
    (ft : ForType) (origBody : Stmt) (lv lmn lmx : Expr) (prov req box : Box)
    (d : Nat) (body : Stmt) (ch : Bool) (c : Nat) :
    match stepDim O func true opName opMin opExtent ft origBody lv lmn lmx prov req box
      d body ch c with
    | .ret _ _ fo _ =>
      (func.schedule.storage_dims.getD fo.dim defaultStorageDim).fold_factor = some fo.factor
    | .fold_continue _ _ fo _ =>
      (func.schedule.storage_dims.getD fo.dim defaultStorageDim).fold_factor = some fo.factor
    | .skip _ _ _ => True := by
  rcases hres : stepDim O func true opName opMin opExtent ft origBody lv lmn lmx prov req box
    d body ch c with st | b2 | b2
  case skip => trivial
  all_goals
  · rename_i ch2 fo c2
    simp only [stepDim] at hres
    by_cases huse : (expr_uses_var (O.simplify (Box.get box d).min) opName ||
        expr_uses_var (O.simplify (Box.get box d).max) opName) = true
    · rw [if_pos huse] at hres
      by_cases hcb : ((dirDecide O func true opName lv
            (O.simplify (Box.get box d).min) (O.simplify (Box.get box d).max)
            (O.simplify (Box.get prov d).max) (O.simplify (Box.get prov d).min)
            (func.schedule.storage_dims.getD d defaultStorageDim)
            (func.schedule.storage_dims.getD d defaultStorageDim).fold_factor body ch).cf ||
          (dirDecide O func true opName lv
            (O.simplify (Box.get box d).min) (O.simplify (Box.get box d).max)
            (O.simplify (Box.get prov d).max) (O.simplify (Box.get prov d).min)
            (func.schedule.storage_dims.getD d defaultStorageDim)
            (func.schedule.storage_dims.getD d defaultStorageDim).fold_factor body ch).cb) = true
      · have hef := dirDecide_explicit_only O func opName lv
          (O.simplify (Box.get box d).min) (O.simplify (Box.get box d).max)
          (O.simplify (Box.get prov d).max) (O.simplify (Box.get prov d).min)
          (func.schedule.storage_dims.getD d defaultStorageDim)
          (func.schedule.storage_dims.getD d defaultStorageDim).fold_factor body ch hcb
        rw [if_pos hcb] at hres
        obtain ⟨ef0, hef0⟩ := Option.isSome_iff_exists.mp hef
        rw [hef0] at hres
        simp only [factorChoose] at hres
        repeat' split at hres
        all_goals
          first
            | exact StepResult.noConfusion hres
            | (cases hres; exact hef0)
      · rw [if_neg hcb] at hres
        exact StepResult.noConfusion hres
    · rw [if_neg huse] at hres
      by_cases hcb : ((dirDecide O func true opName lv
            (O.simplify (Box.get box d).min) (O.simplify (Box.get box d).max)
            (O.simplify (Box.get prov d).max) (O.simplify (Box.get prov d).min)
            (func.schedule.storage_dims.getD d defaultStorageDim) none body ch).cf ||
          (dirDecide O func true opName lv
            (O.simplify (Box.get box d).min) (O.simplify (Box.get box d).max)
            (O.simplify (Box.get prov d).max) (O.simplify (Box.get prov d).min)
            (func.schedule.storage_dims.getD d defaultStorageDim) none body ch).cb) = true
      · have hef := dirDecide_explicit_only O func opName lv
          (O.simplify (Box.get box d).min) (O.simplify (Box.get box d).max)
          (O.simplify (Box.get prov d).max) (O.simplify (Box.get prov d).min)
          (func.schedule.storage_dims.getD d defaultStorageDim) none body ch hcb
        simp at hef
      · rw [if_neg hcb] at hres
        exact StepResult.noConfusion hres

theorem tryDims_explicit_only
    (O : Oracles) (func : Func) (opName : String) (opMin opExtent : Expr)
    (ft : ForType) (origBody : Stmt) (lv lmn lmx : Expr) (prov req box : Box) :
    ∀ (i : Nat) (body : Stmt) (ch : Bool) (c : Nat) (fo : Fold),
      fo ∈ (tryDims O func true opName opMin opExtent ft origBody lv lmn lmx prov req box
        i body ch c).folds →
      (func.schedule.storage_dims.getD fo.dim defaultStorageDim).fold_factor =
        some fo.factor := by
  intro i
  induction i with
  | zero =>
    intro body ch c fo hfo
    simp [tryDims, TryResult.folds] at hfo
  | succ d ih =>
    intro body ch c fo hfo
    rw [tryDims] at hfo
    have hP := stepDim_explicit_only_fold O func opName opMin opExtent ft origBody
      lv lmn lmx prov req box d body ch c
    split at hfo
    · rename_i st ch2 fold c2 heq
      rw [heq] at hP
      simp only [TryResult.folds, List.mem_singleton] at hfo
      subst hfo
      exact hP
    · rename_i b2 ch2 fold c2 heq
      rw [heq] at hP
      split at hfo
      · rename_i st3 ch3 folds3 c3 heq2
        simp only [TryResult.folds, List.mem_cons] at hfo
        rcases hfo with rfl | hfo
        · exact hP
        · exact ih b2 ch2 c2 fo (by rw [heq2]; exact hfo)
      · rename_i b3 ch3 folds3 c3 heq2
        simp only [TryResult.folds, List.mem_cons] at hfo
        rcases hfo with rfl | hfo
        · exact hP
        · exact ih b2 ch2 c2 fo (by rw [heq2]; exact hfo)
    · rename_i b2 ch2 c2 heq
      exact ih b2 ch2 c2 fo hfo

theorem attemptFold_explicit_only (O : Oracles) (func : Func) :
    ∀ (s : Stmt) (c : Nat) (fo : Fold),
      fo ∈ (attemptFold O func true s c).folds →
      (func.schedule.storage_dims.getD fo.dim defaultStorageDim).fold_factor =
        some fo.factor := by
  intro s c
  induction s, c using attemptFold.induct O func true with
  | case1 e c =>
    intro fo h
    simp only [attemptFold] at h
    simp at h
  | case2 n v a c =>
    intro fo h
    simp only [attemptFold] at h
    simp at h
  | case3 a m c =>
    intro fo h
    simp only [attemptFold] at h
    simp at h
  | case4 a b c ra iha ihb =>
    intro fo h
    simp only [attemptFold] at h
    simp only [List.mem_append] at h
    rcases h with h | h
    · exact iha fo h
    · exact ihb fo h
  | case5 n v b c ih =>
    intro fo h
    simp only [attemptFold] at h
    exact ih fo h
  | case6 p b c =>
    intro fo h
    simp only [attemptFold] at h
    simp at h
  | case7 n p b c hn ih =>
    intro fo h
    simp only [attemptFold] at h
    rw [if_neg hn] at h
    exact ih fo h
  | case8 s cnt b c ih =>
    intro fo h
    simp only [attemptFold] at h
    exact ih fo h
  | case9 n bounds b c ih =>
    intro fo h
    simp only [attemptFold] at h
    exact ih fo h
  | case10 n mn ex ft b c hser provided required box st ch folds c2 htd =>
    intro fo h
    simp only [attemptFold] at h
    rw [if_pos hser] at h
    split at h
    · rename_i st2 ch2 folds2 c3 heq2
      exact tryDims_explicit_only O func n mn ex ft b (.Var .i32 n)
        (.Var .i32 (n ++ ".loop_min")) (.Var .i32 (n ++ ".loop_max")) _ _ _ _ b false c fo
        (by rw [heq2]; exact h)
    · rename_i b2 ch2 folds2 c3 heq2
      exact TryResult.noConfusion (htd.symm.trans heq2)
  | case11 n mn ex ft b c hser provided required box body ch folds c2 heq rr hch ih =>
    intro fo h
    simp only [attemptFold] at h
    rw [if_pos hser] at h
    split at h
    · rename_i st2 ch2 folds2 c3 heq2
      exact TryResult.noConfusion (heq.symm.trans heq2)
    · rename_i b2 ch2 folds2 c3 heq2
      have hsame := heq.symm.trans heq2
      cases hsame
      have htry : ∀ fo2 ∈ folds, (func.schedule.storage_dims.getD fo2.dim
          defaultStorageDim).fold_factor = some fo2.factor := by
        intro fo2 h2
        exact tryDims_explicit_only O func n mn ex ft b (.Var .i32 n)
          (.Var .i32 (n ++ ".loop_min")) (.Var .i32 (n ++ ".loop_max")) _ _ _ _ b false c fo2
          (by rw [heq2]; exact h2)
      split at h
      · rename_i hbc
        split at h <;>
          · simp only [List.mem_append] at h
            rcases h with h | h
            · exact htry fo h
            · exact ih fo h
      · rename_i hbc
        split at h <;> exact htry fo h
  | case12 n mn ex ft b c hser provided required box body ch folds c2 heq rr hch ih =>
    intro fo h
    simp only [attemptFold] at h
    rw [if_pos hser] at h
    split at h
    · rename_i st2 ch2 folds2 c3 heq2
      exact TryResult.noConfusion (heq.symm.trans heq2)
    · rename_i b2 ch2 folds2 c3 heq2
      have hsame := heq.symm.trans heq2
      cases hsame
      have htry : ∀ fo2 ∈ folds, (func.schedule.storage_dims.getD fo2.dim
          defaultStorageDim).fold_factor = some fo2.factor := by
        intro fo2 h2
        exact tryDims_explicit_only O func n mn ex ft b (.Var .i32 n)
          (.Var .i32 (n ++ ".loop_min")) (.Var .i32 (n ++ ".loop_max")) _ _ _ _ b false c fo2
          (by rw [heq2]; exact h2)
      split at h
      · rename_i hbc
        split at h <;>
          · simp only [List.mem_append] at h
            rcases h with h | h
            · exact htry fo h
            · exact ih fo h
      · rename_i hbc
        split at h <;> exact htry fo h
  | case13 n mn ex ft b c hser =>
    intro fo h
    simp only [attemptFold] at h
    rw [if_neg hser] at h
    simp at h

/-- C6: when the number of distinct producer blocks of the buffer differs
from exactly one, the orchestrator runs the planner with explicit_only
mode (the Bool `count_producers s name != 1`), and in that mode every fold
the planner records carries the schedule-declared explicit factor of its
dimension: no automatic (monotonicity-derived) fold is ever recorded. -/
theorem C6_multiple_producers_explicit_only (O : Oracles) (func : Func) (s : Stmt)
    (c : Nat) (h : count_producers s func.name ≠ 1) :
    ∀ fo ∈ (attemptFold O func (count_producers s func.name != 1) s c).folds,
      (func.schedule.storage_dims.getD fo.dim defaultStorageDim).fold_factor =
        some fo.factor := by
  have hb : (count_producers s func.name != 1) = true := by
    simpa using h
  rw [hb]
  intro fo hfo
  exact attemptFold_explicit_only O func s c fo hfo

/-- A loop whose body contains two distinct producer blocks for f. -/
def twoProducerLoop : Stmt :=
  .For "y" (.IntImm 0) (.IntImm 10) .Serial
    (.Block (.ProducerConsumer "f" true (.Provide "f" [.IntImm 0] [.Var .i32 "y"]))
      (.ProducerConsumer "f" true (.Provide "f" [.IntImm 0] [.Var .i32 "y"])))

/-- C6 witness: with two producers, the only fold recorded is the
explicit schedule factor 8 of dimension 0. -/
theorem C6_witness :
    (fSync.schedule.storage_dims.getD (Fold.mk 0 (.IntImm 8) none).dim
      defaultStorageDim).fold_factor = some (Fold.mk 0 (.IntImm 8) none).factor :=
  C6_multiple_producers_explicit_only concOracles fSync twoProducerLoop 0
    (by decide)
    (Fold.mk 0 (.IntImm 8) none)
    (by
      have hb : (count_producers twoProducerLoop fSync.name != 1) = true := by decide
      rw [hb]
      show Fold.mk 0 (.IntImm 8) none ∈ (attemptFold concOracles fSync true
        (.For "y" (.IntImm 0) (.IntImm 10) .Serial
          (.Block (.ProducerConsumer "f" true (.Provide "f" [.IntImm 0] [.Var .i32 "y"]))
            (.ProducerConsumer "f" true (.Provide "f" [.IntImm 0] [.Var .i32 "y"])))) 0).folds
      simp only [attemptFold]
      simp only [true_or, if_true, reduceIte]
      split
      · rename_i st ch folds c2 heq
        simp [tryDims, stepDim, dirDecide, factorChoose, foldS, foldE, concOracles, fSync,
          Box.get, expr_uses_var, substitute, is_one, is_const, defaultStorageDim,
          badFoldError, foldFactorTooSmallError, unique_name] at heq
        obtain ⟨h1, h2, h3, h4⟩ := heq
        rw [← h3]
        simp
      · rename_i b2 ch folds c2 heq
        simp [tryDims, stepDim, dirDecide, factorChoose, foldS, foldE, concOracles, fSync,
          Box.get, expr_uses_var, substitute, is_one, is_const, defaultStorageDim,
          badFoldError, foldFactorTooSmallError, unique_name] at heq)

/-- C7: for an allocation whose storage handle is referenced directly in
the scope (special buffer), assuming the recursive mutation of the body
succeeds: a configuration error is raised exactly when some storage
dimension of that buffer declares an explicit fold factor; and when none
does, the allocation is re-emitted with its declared bounds unmodified and
the planner is never invoked for it (no axis folded). -/
theorem C7_special_buffer (O : Oracles) (env : List (String × Func))
    (name : String) (bounds : List (Expr × Expr)) (body : Stmt) (c : Nat)
    (body1 : Stmt) (ch1 : Bool) (c1 : Nat)
    (hrec : storageFoldingMutate O env body c = .ok (body1, ch1, c1))
    (hspecial : is_buffer_special name (.Realize name bounds body) = true) :
    ((lookupFunc env name).schedule.storage_dims.any (fun sd => sd.fold_factor.isSome) =
        true →
      ∃ sd, ((lookupFunc env name).schedule.storage_dims.find?
          (fun sd => sd.fold_factor.isSome)) = some sd ∧
        storageFoldingMutate O env (.Realize name bounds body) c =
          .error ("Dimension " ++ sd.var ++ " of " ++ name ++
            " cannot be folded because it is accessed by extern or device stages.")) ∧
    ((lookupFunc env name).schedule.storage_dims.any (fun sd => sd.fold_factor.isSome) =
        false →
      storageFoldingMutate O env (.Realize name bounds body) c =
        .ok ((if ch1 = true then .Realize name bounds body1 else .Realize name bounds body),
          ch1, c1)) := by
  constructor
  · intro hany
    rw [List.any_eq_true] at hany
    obtain ⟨sd0, hsd0, hsome⟩ := hany
    cases hf : (lookupFunc env name).schedule.storage_dims.find?
        (fun sd => sd.fold_factor.isSome) with
    | none =>
      rw [List.find?_eq_none] at hf
      exact absurd hsome (hf sd0 hsd0)
    | some sd =>
      refine ⟨sd, rfl, ?_⟩
      rw [storageFoldingMutate]
      rw [hrec]
      simp only [Bind.bind, Except.bind]
      rw [if_pos hspecial]
      rw [hf]
  · intro hany
    have hf : (lookupFunc env name).schedule.storage_dims.find?
        (fun sd => sd.fold_factor.isSome) = none := by
      rw [List.find?_eq_none]
      intro sd hsd
      rw [List.any_eq_false] at hany
      exact hany sd hsd
    rw [storageFoldingMutate]
    rw [hrec]
    simp only [Bind.bind, Except.bind]
    rw [if_pos hspecial]
    rw [hf]
    cases ch1 <;> simp

/-- C7 witness: a buffer g whose handle appears in the scope, with no
declared fold factor: the allocation passes through with its bounds
unmodified. -/
theorem C7_witness :
    storageFoldingMutate trivOracles [("g", ⟨"g", ⟨[], false⟩⟩)]
      (.Realize "g" [(.IntImm 0, .IntImm 10)]
        (.Evaluate (.Var .handle "g.buffer"))) 0 =
      .ok (.Realize "g" [(.IntImm 0, .IntImm 10)]
        (.Evaluate (.Var .handle "g.buffer")), false, 0) := by
  have h := (C7_special_buffer trivOracles [("g", ⟨"g", ⟨[], false⟩⟩)] "g"
    [(.IntImm 0, .IntImm 10)] (.Evaluate (.Var .handle "g.buffer")) 0
    (.Evaluate (.Var .handle "g.buffer")) false 0
    (by rw [storageFoldingMutate])
    (by simp [is_buffer_special, is_buffer_special_expr])).2
    (by simp [lookupFunc, List.find?])
  simpa using h

/-- Replace the counter component of a step outcome. -/
def StepResult.setC (k : Nat) : StepResult → StepResult
  | .ret s b f _ => .ret s b f k
  | .fold_continue s b f _ => .fold_continue s b f k
  | .skip s b _ => .skip s b k

/-- Replace the counter component of a loop outcome. -/
def TryResult.setC (k : Nat) : TryResult → TryResult
  | .done s b f _ => .done s b f k
  | .more s b f _ => .more s b f k

/-- Replace the counter component of a planner outcome. -/
def MutResult.setC (k : Nat) (r : MutResult) : MutResult :=
  ⟨r.stmt, r.changed, r.folds, k⟩

theorem stepDim_counter (O : Oracles) (func : Func) (eo : Bool)
    (opName : String) (opMin opExtent : Expr) (ft : ForType) (origBody : Stmt)
    (lv lmn lmx : Expr) (prov req box : Box)
    (hasync : func.schedule.async = false)
    (d : Nat) (body : Stmt) (ch : Bool) (c : Nat) :
    stepDim O func eo opName opMin opExtent ft origBody lv lmn lmx prov req box d body ch c =
      StepResult.setC c
        (stepDim O func eo opName opMin opExtent ft origBody lv lmn lmx prov req box
          d body ch 0) := by
  simp only [stepDim, hasync]
  repeat' split
  all_goals simp_all [StepResult.setC]

theorem tryDims_counter (O : Oracles) (func : Func) (eo : Bool)
    (opName : String) (opMin opExtent : Expr) (ft : ForType) (origBody : Stmt)
    (lv lmn lmx : Expr) (prov req box : Box)
    (hasync : func.schedule.async = false) :
    ∀ (i : Nat) (body : Stmt) (ch : Bool) (c : Nat),
      tryDims O func eo opName opMin opExtent ft origBody lv lmn lmx prov req box
        i body ch c =
      TryResult.setC c
        (tryDims O func eo opName opMin opExtent ft origBody lv lmn lmx prov req box
          i body ch 0) := by
  intro i
  induction i with
  | zero =>
    intro body ch c
    simp [tryDims, TryResult.setC]
  | succ d ih =>
    intro body ch c
    rw [tryDims, tryDims]
    rw [stepDim_counter O func eo opName opMin opExtent ft origBody lv lmn lmx prov req box
      hasync d body ch c]
    cases hst : stepDim O func eo opName opMin opExtent ft origBody lv lmn lmx prov req box
      d body ch 0 with
    | ret st ch2 fo k =>
      have hk : k = 0 := by
        have h0 := stepDim_counter O func eo opName opMin opExtent ft origBody lv lmn lmx
          prov req box hasync d body ch 0
        rw [hst] at h0
        simp [StepResult.setC] at h0
        omega
      subst hk
      simp [StepResult.setC, TryResult.setC]
    | fold_continue b2 ch2 fo k =>
      have hk : k = 0 := by
        have h0 := stepDim_counter O func eo opName opMin opExtent ft origBody lv lmn lmx
          prov req box hasync d body ch 0
        rw [hst] at h0
        simp [StepResult.setC] at h0
        omega
      subst hk
      simp only [StepResult.setC]
      rw [ih b2 ch2 c]
      cases htr : tryDims O func eo opName opMin opExtent ft origBody lv lmn lmx prov req box
        d b2 ch2 0 with
      | done st3 ch3 f3 k3 => simp [TryResult.setC]
      | more b3 ch3 f3 k3 => simp [TryResult.setC]
    | skip b2 ch2 k =>
      have hk : k = 0 := by
        have h0 := stepDim_counter O func eo opName opMin opExtent ft origBody lv lmn lmx
          prov req box hasync d body ch 0
        rw [hst] at h0
        simp [StepResult.setC] at h0
        omega
      subst hk
      simp only [StepResult.setC]
      exact ih b2 ch2 c

theorem attemptFold_counter (O : Oracles) (func : Func) (eo : Bool)
    (hasync : func.schedule.async = false) :
    ∀ (s : Stmt) (c : Nat) (k : Nat),
      attemptFold O func eo s k = MutResult.setC k (attemptFold O func eo s 0) := by
  intro s c
  induction s, c using attemptFold.induct O func eo with
  | case1 e c =>
    intro k
    simp [attemptFold, MutResult.setC]
  | case2 n v a c =>
    intro k
    simp [attemptFold, MutResult.setC]
  | case3 a m c =>
    intro k
    simp [attemptFold, MutResult.setC]
  | case4 a b c ra iha ihb =>
    intro k
    have ha0 : (attemptFold O func eo a 0).counter = 0 := by
      rw [iha 0]
      simp [MutResult.setC]
    simp only [attemptFold]
    rw [iha k]
    simp only [MutResult.setC]
    rw [ha0, ihb k, ihb 0]
    simp [MutResult.setC]
  | case5 n v b c ih =>
    intro k
    simp only [attemptFold]
    rw [ih k]
    simp [MutResult.setC]
  | case6 p b c =>
    intro k
    simp [attemptFold, MutResult.setC]
  | case7 n p b c hn ih =>
    intro k
    simp only [attemptFold]
    rw [if_neg hn, if_neg hn]
    rw [ih k]
    simp [MutResult.setC]
  | case8 s cnt b c ih =>
    intro k
    simp only [attemptFold]
    rw [ih k]
    simp [MutResult.setC]
  | case9 n bounds b c ih =>
    intro k
    simp only [attemptFold]
    rw [ih k]
    simp [MutResult.setC]
  | case10 n mn ex ft b c hser provided required box st ch folds c2 htd =>
    intro k
    have hk := tryDims_counter O func eo n mn ex ft b (.Var .i32 n)
      (.Var .i32 (n ++ ".loop_min")) (.Var .i32 (n ++ ".loop_max"))
      (O.box_provided b func.name) (O.box_required b func.name)
      (O.box_union (O.box_provided b func.name) (O.box_required b func.name)) hasync
      (List.length (O.box_union (O.box_provided b func.name) (O.box_required b func.name)))
      b false k
    have hc := tryDims_counter O func eo n mn ex ft b (.Var .i32 n)
      (.Var .i32 (n ++ ".loop_min")) (.Var .i32 (n ++ ".loop_max"))
      (O.box_provided b func.name) (O.box_required b func.name)
      (O.box_union (O.box_provided b func.name) (O.box_required b func.name)) hasync
      (List.length (O.box_union (O.box_provided b func.name) (O.box_required b func.name)))
      b false c
    simp only [attemptFold]
    rw [if_pos hser, if_pos hser]
    cases ht0 : tryDims O func eo n mn ex ft b (.Var .i32 n)
      (.Var .i32 (n ++ ".loop_min")) (.Var .i32 (n ++ ".loop_max"))
      (O.box_provided b func.name) (O.box_required b func.name)
      (O.box_union (O.box_provided b func.name) (O.box_required b func.name))
      (List.length (O.box_union (O.box_provided b func.name) (O.box_required b func.name)))
      b false 0 with
    | done st0 ch0 f0 k0 =>
      rw [ht0] at hk
      simp only [TryResult.setC] at hk
      split
      · rename_i st1 ch1 f1 k1 heqL
        cases hk.symm.trans heqL
        simp [MutResult.setC]
      · rename_i b1 ch1 f1 k1 heqL
        exact TryResult.noConfusion (hk.symm.trans heqL)
    | more b0 ch0 f0 k0 =>
      rw [ht0] at hc
      simp only [TryResult.setC] at hc
      exact TryResult.noConfusion (htd.symm.trans hc)
  | case11 n mn ex ft b c hser provided required box body ch folds c2 heq rr hch ih =>
    intro k
    have hk := tryDims_counter O func eo n mn ex ft b (.Var .i32 n)
      (.Var .i32 (n ++ ".loop_min")) (.Var .i32 (n ++ ".loop_max"))
      (O.box_provided b func.name) (O.box_required b func.name)
      (O.box_union (O.box_provided b func.name) (O.box_required b func.name)) hasync
      (List.length (O.box_union (O.box_provided b func.name) (O.box_required b func.name)))
      b false k
    have hc := tryDims_counter O func eo n mn ex ft b (.Var .i32 n)
      (.Var .i32 (n ++ ".loop_min")) (.Var .i32 (n ++ ".loop_max"))
      (O.box_provided b func.name) (O.box_required b func.name)
      (O.box_union (O.box_provided b func.name) (O.box_required b func.name)) hasync
      (List.length (O.box_union (O.box_provided b func.name) (O.box_required b func.name)))
      b false c
    simp only [attemptFold]
    rw [if_pos hser, if_pos hser]
    cases ht0 : tryDims O func eo n mn ex ft b (.Var .i32 n)
      (.Var .i32 (n ++ ".loop_min")) (.Var .i32 (n ++ ".loop_max"))
      (O.box_provided b func.name) (O.box_required b func.name)
      (O.box_union (O.box_provided b func.name) (O.box_required b func.name))
      (List.length (O.box_union (O.box_provided b func.name) (O.box_required b func.name)))
      b false 0 with
    | done st0 ch0 f0 k0 =>
      rw [ht0] at hc
      simp only [TryResult.setC] at hc
      exact TryResult.noConfusion (heq.symm.trans hc)
    | more b0 ch0 f0 k0 =>
      rw [ht0] at hk
      rw [ht0] at hc
      simp only [TryResult.setC] at hk hc
      have hid := heq.symm.trans hc
      cases hid
      split
      · rename_i st1 ch1 f1 k1 heqL
        exact TryResult.noConfusion (hk.symm.trans heqL)
      · rename_i b1 ch1 f1 k1 heqL
        cases hk.symm.trans heqL
        have h00 := tryDims_counter O func eo n mn ex ft b (.Var .i32 n)
          (.Var .i32 (n ++ ".loop_min")) (.Var .i32 (n ++ ".loop_max"))
          (O.box_provided b func.name) (O.box_required b func.name)
          (O.box_union (O.box_provided b func.name) (O.box_required b func.name)) hasync
          (List.length (O.box_union (O.box_provided b func.name) (O.box_required b func.name)))
          b false 0
        rw [ht0] at h00
        simp only [TryResult.setC] at h00
        cases h00
        rw [ih k]
        clear ih
        simp only [MutResult.setC]
        repeat' split
        all_goals simp_all [MutResult.setC]
  | case12 n mn ex ft b c hser provided required box body ch folds c2 heq rr hch ih =>
    intro k
    have hk := tryDims_counter O func eo n mn ex ft b (.Var .i32 n)
      (.Var .i32 (n ++ ".loop_min")) (.Var .i32 (n ++ ".loop_max"))
      (O.box_provided b func.name) (O.box_required b func.name)
      (O.box_union (O.box_provided b func.name) (O.box_required b func.name)) hasync
      (List.length (O.box_union (O.box_provided b func.name) (O.box_required b func.name)))
      b false k
    have hc := tryDims_counter O func eo n mn ex ft b (.Var .i32 n)
      (.Var .i32 (n ++ ".loop_min")) (.Var .i32 (n ++ ".loop_max"))
      (O.box_provided b func.name) (O.box_required b func.name)
      (O.box_union (O.box_provided b func.name) (O.box_required b func.name)) hasync
      (List.length (O.box_union (O.box_provided b func.name) (O.box_required b func.name)))
      b false c
    simp only [attemptFold]
    rw [if_pos hser, if_pos hser]
    cases ht0 : tryDims O func eo n mn ex ft b (.Var .i32 n)
      (.Var .i32 (n ++ ".loop_min")) (.Var .i32 (n ++ ".loop_max"))
      (O.box_provided b func.name) (O.box_required b func.name)
      (O.box_union (O.box_provided b func.name) (O.box_required b func.name))
      (List.length (O.box_union (O.box_provided b func.name) (O.box_required b func.name)))
      b false 0 with
    | done st0 ch0 f0 k0 =>
      rw [ht0] at hc
      simp only [TryResult.setC] at hc
      exact TryResult.noConfusion (heq.symm.trans hc)
    | more b0 ch0 f0 k0 =>
      rw [ht0] at hk
      rw [ht0] at hc
      simp only [TryResult.setC] at hk hc
      have hid := heq.symm.trans hc
      cases hid
      split
      · rename_i st1 ch1 f1 k1 heqL
        exact TryResult.noConfusion (hk.symm.trans heqL)
      · rename_i b1 ch1 f1 k1 heqL
        cases hk.symm.trans heqL
        have h00 := tryDims_counter O func eo n mn ex ft b (.Var .i32 n)
          (.Var .i32 (n ++ ".loop_min")) (.Var .i32 (n ++ ".loop_max"))
          (O.box_provided b func.name) (O.box_required b func.name)
          (O.box_union (O.box_provided b func.name) (O.box_required b func.name)) hasync
          (List.length (O.box_union (O.box_provided b func.name) (O.box_required b func.name)))
          b false 0
        rw [ht0] at h00
        simp only [TryResult.setC] at h00
        cases h00
        rw [ih k]
        clear ih
        simp only [MutResult.setC]
        repeat' split
        all_goals simp_all [MutResult.setC]
  | case13 n mn ex ft b c hser =>
    intro k
    simp only [attemptFold]
    rw [if_neg hser, if_neg hser]
    simp [MutResult.setC]

theorem lookupFunc_async (env : List (String × Func)) (name : String)
    (h : ∀ p ∈ env, p.2.schedule.async = false) :
    (lookupFunc env name).schedule.async = false := by
  unfold lookupFunc
  cases hf : env.find? (fun p => p.1 = name) with
  | none => simp [defaultFunc]
  | some p => simpa using h p (List.mem_of_find?_eq_some hf)

theorem storageFoldingMutate_counter (O : Oracles) (env : List (String × Func))
    (h : ∀ p ∈ env, p.2.schedule.async = false) :
    ∀ (s : Stmt) (c : Nat),
      storageFoldingMutate O env s c =
        (storageFoldingMutate O env s 0).map (fun p => (p.1, p.2.1, c)) := by
  intro s
  induction s with
  | Evaluate e =>
    intro c
    simp [storageFoldingMutate, Except.map]
  | Provide n v a =>
    intro c
    simp [storageFoldingMutate, Except.map]
  | AssertStmt a m =>
    intro c
    simp [storageFoldingMutate, Except.map]
  | Block a b iha ihb =>
    intro c
    simp only [storageFoldingMutate]
    cases h0a : storageFoldingMutate O env a 0 with
    | error e =>
      have hca : storageFoldingMutate O env a c = .error e := by
        rw [iha c, h0a]
        rfl
      rw [hca]
      simp [Bind.bind, Except.bind, Except.map]
    | ok pa =>
      obtain ⟨a1, cha, ka⟩ := pa
      have hka : ka = 0 := by
        have hh := iha 0
        rw [h0a] at hh
        simp [Bind.bind, Except.bind, Except.map] at hh
        omega
      subst hka
      have hca : storageFoldingMutate O env a c = .ok (a1, cha, c) := by
        rw [iha c, h0a]
        simp [Bind.bind, Except.bind, Except.map]
      rw [hca]
      simp only [Bind.bind, Except.bind]
      cases h0b : storageFoldingMutate O env b 0 with
      | error e =>
        have hcb : storageFoldingMutate O env b c = .error e := by
          rw [ihb c, h0b]
          rfl
        rw [hcb]
        simp [Bind.bind, Except.bind, Except.map]
      | ok pb =>
        obtain ⟨b1, chb, kb⟩ := pb
        have hkb : kb = 0 := by
          have hh := ihb 0
          rw [h0b] at hh
          simp [Bind.bind, Except.bind, Except.map] at hh
          omega
        subst hkb
        have hcb : storageFoldingMutate O env b c = .ok (b1, chb, c) := by
          rw [ihb c, h0b]
          simp [Bind.bind, Except.bind, Except.map]
        rw [hcb]
        simp [Bind.bind, Except.bind, Except.map]
  | LetStmt n v b ih =>
    intro c
    simp only [storageFoldingMutate]
    cases h0b : storageFoldingMutate O env b 0 with
    | error e =>
      have hcb : storageFoldingMutate O env b c = .error e := by
        rw [ih c, h0b]
        rfl
      rw [hcb]
      simp [Bind.bind, Except.bind, Except.map]
    | ok pb =>
      obtain ⟨b1, chb, kb⟩ := pb
      have hkb : kb = 0 := by
        have hh := ih 0
        rw [h0b] at hh
        simp [Bind.bind, Except.bind, Except.map] at hh
        omega
      subst hkb
      have hcb : storageFoldingMutate O env b c = .ok (b1, chb, c) := by
        rw [ih c, h0b]
        simp [Bind.bind, Except.bind, Except.map]
      rw [hcb]
      simp [Bind.bind, Except.bind, Except.map]
  | ProducerConsumer n p b ih =>
    intro c
    simp only [storageFoldingMutate]
    cases h0b : storageFoldingMutate O env b 0 with
    | error e =>
      have hcb : storageFoldingMutate O env b c = .error e := by
        rw [ih c, h0b]
        rfl
      rw [hcb]
      simp [Bind.bind, Except.bind, Except.map]
    | ok pb =>
      obtain ⟨b1, chb, kb⟩ := pb
      have hkb : kb = 0 := by
        have hh := ih 0
        rw [h0b] at hh
        simp [Bind.bind, Except.bind, Except.map] at hh
        omega
      subst hkb
      have hcb : storageFoldingMutate O env b c = .ok (b1, chb, c) := by
        rw [ih c, h0b]
        simp [Bind.bind, Except.bind, Except.map]
      rw [hcb]
      simp [Bind.bind, Except.bind, Except.map]
  | For n mn ex ft b ih =>
    intro c
    simp only [storageFoldingMutate]
    cases h0b : storageFoldingMutate O env b 0 with
    | error e =>
      have hcb : storageFoldingMutate O env b c = .error e := by
        rw [ih c, h0b]
        rfl
      rw [hcb]
      simp [Bind.bind, Except.bind, Except.map]
    | ok pb =>
      obtain ⟨b1, chb, kb⟩ := pb
      have hkb : kb = 0 := by
        have hh := ih 0
        rw [h0b] at hh
        simp [Bind.bind, Except.bind, Except.map] at hh
        omega
      subst hkb
      have hcb : storageFoldingMutate O env b c = .ok (b1, chb, c) := by
        rw [ih c, h0b]
        simp [Bind.bind, Except.bind, Except.map]
      rw [hcb]
      simp [Bind.bind, Except.bind, Except.map]
  | Acquire s cnt b ih =>
    intro c
    simp only [storageFoldingMutate]
    cases h0b : storageFoldingMutate O env b 0 with
    | error e =>
      have hcb : storageFoldingMutate O env b c = .error e := by
        rw [ih c, h0b]
        rfl
      rw [hcb]
      simp [Bind.bind, Except.bind, Except.map]
    | ok pb =>
      obtain ⟨b1, chb, kb⟩ := pb
      have hkb : kb = 0 := by
        have hh := ih 0
        rw [h0b] at hh
        simp [Bind.bind, Except.bind, Except.map] at hh
        omega
      subst hkb
      have hcb : storageFoldingMutate O env b c = .ok (b1, chb, c) := by
        rw [ih c, h0b]
        simp [Bind.bind, Except.bind, Except.map]
      rw [hcb]
      simp [Bind.bind, Except.bind, Except.map]
  | Realize name bounds body ih =>
    intro c
    simp only [storageFoldingMutate]
    cases h0b : storageFoldingMutate O env body 0 with
    | error e =>
      have hcb : storageFoldingMutate O env body c = .error e := by
        rw [ih c, h0b]
        rfl
      rw [hcb]
      simp [Bind.bind, Except.bind, Except.map]
    | ok pb =>
      obtain ⟨b1, chb, kb⟩ := pb
      have hkb : kb = 0 := by
        have hh := ih 0
        rw [h0b] at hh
        simp [Bind.bind, Except.bind, Except.map] at hh
        omega
      subst hkb
      have hcb : storageFoldingMutate O env body c = .ok (b1, chb, c) := by
        rw [ih c, h0b]
        simp [Bind.bind, Except.bind, Except.map]
      rw [hcb]
      simp only [Bind.bind, Except.bind]
      by_cases hsp : is_buffer_special name (.Realize name bounds body) = true
      · rw [if_pos hsp, if_pos hsp]
        cases hf : (lookupFunc env name).schedule.storage_dims.find?
            (fun sd => sd.fold_factor.isSome) with
        | some sd => simp [Bind.bind, Except.bind, Except.map]
        | none =>
          cases chb <;> simp [Bind.bind, Except.bind, Except.map]
      · rw [if_neg hsp, if_neg hsp]
        have hra := attemptFold_counter O (lookupFunc env name)
          (count_producers b1 name != 1) (lookupFunc_async env name h) b1 c c
        rw [hra]
        simp only [MutResult.setC]
        cases hch0 : ((chb || (attemptFold O (lookupFunc env name)
            (count_producers b1 name != 1) b1 0).changed) : Bool) with
        | false => simp [hch0, Except.map]
        | true =>
          cases hemp : (attemptFold O (lookupFunc env name)
              (count_producers b1 name != 1) b1 0).folds.isEmpty with
          | true => simp [hemp, Except.map]
          | false => simp [hemp, Except.map]


/-- A single-producer async sliding-window loop over f. -/
def c5For : Stmt :=
  .For "y" (.IntImm 0) (.IntImm 10) .Serial
    (.ProducerConsumer "f" true (.Provide "f" [.IntImm 0] [.Var .i32 "y"]))

/-- The loop under its allocation of f. -/
def c5Input : Stmt := .Realize "f" [(.IntImm 0, .IntImm 10)] c5For

/-- Environment scheduling f async with explicit fold factor 8. -/
def c5Env : List (String × Func) := [("f", fAsync)]

/-- The name bound by a top-level LetStmt, if any. -/
def topLetName : Stmt → Option String
  | .LetStmt n _ _ => some n
  | _ => none

/-- The rewritten loop produced by the planner on c5For when the global
fresh-name counter is c. -/
def c5OutBody (c : Nat) : Stmt :=
  .For "y" (.IntImm 0) (.IntImm 10) .Serial
    (.Acquire (.Var .handle ("f.folding_semaphore." ++ unique_name c))
      (.Select (.GT (.Var .i32 "y") (.Var .i32 "y.loop_min"))
        (likelyE (.Sub (.Var .i32 "y") (.Sub (.Var .i32 "y") (.IntImm 1))))
        (.Add (.Sub (.Var .i32 "y") (.Var .i32 "y")) (.IntImm 1)))
      (.Block
        (.Block
          (.AssertStmt
            (.LE (.Add (.Sub (.Var .i32 "y") (.Var .i32 "y")) (.IntImm 1)) (.IntImm 8))
            (foldFactorTooSmallError "f" "x" (.IntImm 8) "y"
              (.Add (.Sub (.Var .i32 "y") (.Var .i32 "y")) (.IntImm 1))))
          (.ProducerConsumer "f" true
            (.Provide "f" [.IntImm 0] [.Mod (.Var .i32 "y") (.IntImm 8)])))
        (.Evaluate (.Call "halide_semaphore_release"
          [.Var .handle ("f.folding_semaphore." ++ unique_name c),
           .Sub (.Add (.Var .i32 "y") (.IntImm 1)) (.Var .i32 "y")] .Extn))))

theorem c5_attempt_eval (c : Nat) :
    attemptFold concOracles fAsync false c5For c =
      ⟨c5OutBody c, true,
       [⟨0, .IntImm 8, some ⟨"f.folding_semaphore." ++ unique_name c,
          .Var .handle ("f.folding_semaphore." ++ unique_name c), .IntImm 8⟩⟩], c + 1⟩ := by
  simp only [c5For, attemptFold]
  simp only [true_or, if_true, reduceIte]
  split
  · rename_i st ch folds c2 heq
    simp [tryDims, stepDim, dirDecide, factorChoose, foldS, foldE, concOracles, fAsync,
      synthSemaphore, acquireExprFwd, releaseExprFwd, acquireExprBwd, releaseExprBwd,
      likelyE, substitute, unique_name, is_const, is_one,
      Box.get, expr_uses_var, defaultStorageDim,
      badFoldError, foldFactorTooSmallError] at heq
    obtain ⟨h1, h2, h3, h4⟩ := heq
    subst h1 h3 h4 h2
    simp [c5OutBody, likelyE, foldFactorTooSmallError, unique_name]
  · rename_i b2 ch folds c2 heq
    simp [tryDims, stepDim, dirDecide, factorChoose, foldS, foldE, concOracles, fAsync,
      synthSemaphore, acquireExprFwd, releaseExprFwd, acquireExprBwd, releaseExprBwd,
      likelyE, substitute, unique_name, is_const, is_one,
      Box.get, expr_uses_var, defaultStorageDim,
      badFoldError, foldFactorTooSmallError] at heq


theorem c5_mutate_eval (c : Nat) :
    storageFoldingMutate concOracles c5Env c5Input c =
      .ok (.LetStmt ("f.folding_semaphore." ++ unique_name c)
            (.Call "halide_make_semaphore" [.IntImm 8] .Extn)
            (.Realize "f" [(.IntImm 0, .IntImm 8)] (c5OutBody c)), true, c + 1) := by
  have hlk : lookupFunc c5Env "f" = fAsync := by
    simp [lookupFunc, c5Env, List.find?]
  have heo : ((count_producers c5For "f" != 1) : Bool) = false := by
    simp [c5For, count_producers]
  have hsp : is_buffer_special "f" (.Realize "f" [(.IntImm 0, .IntImm 10)] c5For) = false := by
    simp [c5For, is_buffer_special, is_buffer_special_expr]
  have hatt := c5_attempt_eval c
  simp only [c5For] at heo hatt
  simp only [c5For] at hsp
  simp only [c5Input, c5For, storageFoldingMutate]
  simp only [Bind.bind, Except.bind]
  rw [hsp]
  simp only [Bool.false_eq_true, if_false, reduceIte]
  rw [hlk]
  rw [heo]
  rw [hatt]
  simp [List.foldl]

theorem c5_run_eval (c : Nat) :
    storage_folding concOracles c5Env c5Input c =
      .ok (.LetStmt ("f.folding_semaphore." ++ unique_name c)
            (.Call "halide_make_semaphore" [.IntImm 8] .Extn)
            (.Realize "f" [(.IntImm 0, .IntImm 8)] (c5OutBody c)), c + 1) := by
  have hsic : sicS concOracles.simplify [] c5Input = c5Input := by
    simp [c5Input, c5For, sicS, sicE, scope_get, is_const, concOracles]
  simp only [storage_folding]
  rw [hsic, c5_mutate_eval c]


/-- C5 counterexample: the output of the pass is not a function of the
statement tree and the schedule metadata alone.  On the same tree and the
same (async) schedule, two runs that differ only in the hidden global
fresh-name counter behind unique_name — exactly the situation of two
successive runs inside one compiler process — produce different output
trees: the semaphore handle bound by the outer LetStmt is named
f.folding_semaphore._0 in the first run and f.folding_semaphore._1 in the
second. -/
theorem C5_counterexample :
    (storage_folding concOracles c5Env c5Input 0).map Prod.fst ≠
        (storage_folding concOracles c5Env c5Input 1).map Prod.fst ∧
      (storage_folding concOracles c5Env c5Input 0).map (fun p => topLetName p.1) =
        .ok (some "f.folding_semaphore._0") ∧
      (storage_folding concOracles c5Env c5Input 1).map (fun p => topLetName p.1) =
        .ok (some "f.folding_semaphore._1") := by
  rw [c5_run_eval 0, c5_run_eval 1]
  refine ⟨?_, ?_, ?_⟩
  · intro hcontra
    simp [Except.map, unique_name] at hcontra
    exact absurd hcontra.1 (by decide)
  · simp [Except.map, topLetName, unique_name]
    rfl
  · simp [Except.map, topLetName, unique_name]
    rfl

/-- C5 (amended): determinism holds relative to the fresh-name counter
state: the pass is a function of the statement tree, the schedule
metadata and the unique_name counter; and whenever no function in the
environment is scheduled async (so no semaphore name is generated), the
output tree does not depend on the counter at all, so any two runs on the
same tree and metadata produce identical trees. -/
theorem C5_deterministic_modulo_counter (O : Oracles) (env : List (String × Func))
    (h : ∀ p ∈ env, p.2.schedule.async = false) (s : Stmt) (c1 c2 : Nat) :
    (storage_folding O env s c1).map Prod.fst =
      (storage_folding O env s c2).map Prod.fst := by
  have h1 := storageFoldingMutate_counter O env h (sicS O.simplify [] s) c1
  have h2 := storageFoldingMutate_counter O env h (sicS O.simplify [] s) c2
  simp only [storage_folding]
  rw [h1, h2]
  cases storageFoldingMutate O env (sicS O.simplify [] s) 0 with
  | error e => simp [Except.map]
  | ok p => simp [Except.map]

/-- C5 witness: a concrete non-async run is counter-independent. -/
theorem C5_witness :
    (storage_folding trivOracles [("f", fSync)] (.Evaluate (.IntImm 0)) 0).map Prod.fst =
      (storage_folding trivOracles [("f", fSync)] (.Evaluate (.IntImm 0)) 7).map Prod.fst :=
  C5_deterministic_modulo_counter trivOracles [("f", fSync)] (by decide)
    (.Evaluate (.IntImm 0)) 0 7

end StorageFold
